import Mathlib

/-!
# Spec2Proof: a verification development for the nativelink scheduler and CAS core

This file gives a shallow embedding, in Lean 4, of the parts of the
nativelink sources that the specification talks about:

* the fast/slow store range arithmetic (`src/nativelink-store/src/fast_slow_store.rs`),
* the in-memory CAS store (`src/cas/store/memory_store.rs`),
* the bytestream resource-name parsing and write-stream wrapper
  (`src/cas/grpc_service/bytestream_server.rs`, `src/util/resource_info.rs`),
* the buffered byte channel (`src/util/buf_channel.rs`),
* the scheduler state manager and worker pool
  (`src/nativelink-scheduler/src/scheduler_state/state_manager.rs`,
   `src/nativelink-scheduler/src/scheduler_state/workers.rs`,
   `src/nativelink-scheduler/src/simple_scheduler.rs`).

Rust machine integers are modelled as `Nat`/`Int`; fallible Rust code
returns `Option`/`Except`; `panic!`-style assertions are modelled by an
`Option` result (with `none` marking the panic) where they are reachable,
and noted in comments otherwise.  Structures whose defining file is not
part of the provided sources (for example the `ActionInfo` identity and
ordering, or the worker bookkeeping in `worker.rs`) are modelled from the
specification and marked as such in their doc comments.
-/

/-- A byte value.  We model Rust `u8` as a plain `Nat`; none of the verified
code depends on the 0..255 bound. -/
abbrev Byte := Nat

/-- A byte buffer (Rust `Vec<u8>` / `Bytes`). -/
abbrev Bytes := List Byte

/-! ## Ranges and `FastSlowStore::calculate_range`

From `src/nativelink-store/src/fast_slow_store.rs`.  Rust `Range<usize>` is
a pair of `usize` bounds; `usize` is modelled by `Nat`.  The single
subtraction `end - 1` in the source can underflow when `end == 0`; that
case is excluded by the claimed precondition (a non-empty `send_range`),
under which the `Nat` truncated subtraction used here agrees with Rust. -/

/-- Rust `std::ops::Range<usize>`: the half-open interval `[start, stop)`.
The field `stop` renders Rust `end` (a keyword in Lean). -/
structure NatRange where
  start : Nat
  stop : Nat
deriving DecidableEq, Repr

/-- Rust `Range::contains(&x)` for `Range<usize>`. -/
def NatRange.containsNat (r : NatRange) (x : Nat) : Bool :=
  decide (r.start ≤ x ∧ x < r.stop)

namespace FastSlowStore

/-- `FastSlowStore::calculate_range(received_range, send_range)`, translated
clause by clause from `fast_slow_store.rs`. -/
def calculate_range (received_range send_range : NatRange) : Option NatRange :=
  -- Protect against subtraction overflow.
  if received_range.start ≥ received_range.stop then
    none
  else
    let start := max received_range.start send_range.start
    let stop := min received_range.stop send_range.stop
    if received_range.containsNat start ∧ received_range.containsNat (stop - 1) then
      -- Offset both to the start of the received_range.
      some ⟨start - received_range.start, stop - received_range.start⟩
    else
      none

end FastSlowStore

/-- C10. For every `received_range` and every non-empty `send_range`,
`FastSlowStore::calculate_range` returns `some r` exactly when
`received_range` is non-empty and the two ranges intersect, and then `r` is
the intersection `[max of starts, min of ends)` shifted down by
`received_range.start`; it returns `none` when `received_range` is empty or
the ranges are disjoint.  The non-empty `send_range` hypothesis keeps the
source's `end - 1` subtraction defined. -/
theorem calculate_range_intersection (rr sr : NatRange) (hsr : sr.start < sr.stop) :
    FastSlowStore.calculate_range rr sr =
      if rr.start < rr.stop ∧ max rr.start sr.start < min rr.stop sr.stop then
        some ⟨max rr.start sr.start - rr.start, min rr.stop sr.stop - rr.start⟩
      else
        none := by
  rcases rr with ⟨a, b⟩
  rcases sr with ⟨c, d⟩
  simp only at hsr
  unfold FastSlowStore.calculate_range
  simp only [NatRange.containsNat, ge_iff_le, decide_eq_true_eq]
  by_cases hab : a < b
  · rw [if_neg (by omega)]
    by_cases hinter : max a c < min b d
    · rw [if_pos (by omega), if_pos (by exact ⟨hab, hinter⟩)]
    · rw [if_neg (by omega), if_neg (by omega)]
  · rw [if_pos (by omega), if_neg (by omega)]

/-- Witness for C10 at a concrete input: `received_range = [2, 10)`,
`send_range = [0, 5)` intersect in `[2, 5)`, which shifts down to `[0, 3)`. -/
theorem calculate_range_intersection_witness :
    (0 : Nat) < 5 ∧
      FastSlowStore.calculate_range ⟨2, 10⟩ ⟨0, 5⟩ =
        if (2 : Nat) < 10 ∧ max 2 0 < min 10 5 then
          some ⟨max 2 0 - 2, min 10 5 - 2⟩
        else
          none :=
  ⟨by decide, calculate_range_intersection ⟨2, 10⟩ ⟨0, 5⟩ (by decide)⟩

/-! ## The in-memory CAS store

From `src/cas/store/memory_store.rs`.  The store keeps an
`EvictingMap<Instant>` from digests to shared byte buffers.  The
`EvictingMap` itself lives in `evicting_map.rs`, which is not among the
provided sources; per the specification it is a map guarded by an eviction
policy whose default (`EvictionPolicy::default()`, all limits zero) is
unbounded, so insert/lookup between a single `update` and `get_part` behave
as on a plain association map.  Modelled from the spec: the `EvictingMap`
is rendered as an association list with no eviction. -/

/-- `DigestInfo`: the `(hash, size_bytes)` content address. -/
structure DigestInfo where
  hash : Nat
  sizeBytes : Nat
deriving DecidableEq, Repr

namespace MemoryStore

/-- The memory store's state: `map: Mutex<EvictingMap<Instant>>`, with the
eviction policy defaulted (unbounded). -/
def StoreMap := List (DigestInfo × Bytes)

/-- Map lookup (`EvictingMap::get`). -/
def StoreMap.get : StoreMap → DigestInfo → Option Bytes
  | [], _ => none
  | (d, v) :: rest, digest => if d = digest then some v else StoreMap.get rest digest

/-- Map insert (`EvictingMap::insert`), replacing any previous entry. -/
def StoreMap.insert : StoreMap → DigestInfo → Bytes → StoreMap
  | [], digest, value => [(digest, value)]
  | (d, v) :: rest, digest, value =>
      if d = digest then (digest, value) :: rest
      else (d, v) :: StoreMap.insert rest digest value

/-- `MemoryStore::update(digest, reader, size_info)`: reads the reader to
completion (`read_to_end`) and inserts the buffer.  The reader is modelled
by the byte sequence it carries; `size_info` only pre-sizes the buffer and
does not affect the result. -/
def update (map : StoreMap) (digest : DigestInfo) (data : Bytes) : StoreMap :=
  map.insert digest data

/-- What `MemoryStore::get_part` does to its writer: the bytes passed to
`write_all`, and whether the writer then saw the zero-length write plus
`shutdown` (the EOF signal). -/
structure GetPartOutput where
  written : Bytes
  eofSignalled : Bool
deriving DecidableEq, Repr

/-- `MemoryStore::get_part(digest, writer, offset, length)`: looks the
digest up (`NotFound` on a miss), slices
`value[offset .. offset + min(length.unwrap_or(default_len), default_len)]`
with `default_len = value.len() - offset`, writes the slice, then writes a
zero-length buffer and shuts the writer down (EOF). -/
def get_part (map : StoreMap) (digest : DigestInfo) (offset : Nat)
    (length : Option Nat) : Except String GetPartOutput :=
  match map.get digest with
  | none => .error "NotFound"
  | some value =>
      let default_len := value.length - offset
      let len := min (length.getD default_len) default_len
      .ok ⟨(value.drop offset).take len, true⟩

end MemoryStore

/-- C2. For every digest `d` and byte sequence `x`, on the memory store,
`update(d, x)` followed by `get_part(d, writer, 0, None)` writes exactly
the bytes `x` to the writer and then signals EOF (round-trip). -/
theorem memory_store_round_trip (map : MemoryStore.StoreMap) (d : DigestInfo) (x : Bytes) :
    MemoryStore.get_part (MemoryStore.update map d x) d 0 none = .ok ⟨x, true⟩ := by
  have hget : (MemoryStore.update map d x).get d = some x := by
    unfold MemoryStore.update
    induction map with
    | nil => simp [MemoryStore.StoreMap.insert, MemoryStore.StoreMap.get]
    | cons hd tl ih =>
        obtain ⟨d', v'⟩ := hd
        by_cases hd' : d' = d
        · subst hd'
          simp [MemoryStore.StoreMap.insert, MemoryStore.StoreMap.get]
        · simp [MemoryStore.StoreMap.insert, MemoryStore.StoreMap.get, hd', ih]
  unfold MemoryStore.get_part
  rw [hget]
  simp

/-! ## Bytestream resource names

From `src/util/resource_info.rs` (a byte-identical copy of the parser also
sits in `src/cas/grpc_service/bytestream_server.rs`).  The parser splits
the resource name with `resource_name.splitn(6, '/')` and consumes the
pieces with an iterator; it checks the literal segments and parses the
size, but performs no validation of the hash segment. -/

namespace ResourceName

/-- Splitting a character list at every `'/'` (the full `str::split('/')`):
always at least one piece, adjacent separators giving empty pieces. -/
def splitCharsOnSlash : List Char → List (List Char)
  | [] => [[]]
  | c :: rest =>
    if c = '/' then [] :: splitCharsOnSlash rest
    else
      match splitCharsOnSlash rest with
      | [] => [[c]]
      | piece :: more => (c :: piece) :: more

/-- Joining character-list pieces with `'/'` back in between (used only to
rebuild the unsplit remainder that `splitn` leaves in its last piece). -/
def joinCharsWithSlash : List (List Char) → List Char
  | [] => []
  | [piece] => piece
  | piece :: rest => piece ++ '/' :: joinCharsWithSlash rest

/-- `str::splitn(6, '/')` collected to a list: at most 6 pieces, the last
piece holding the unsplit remainder. -/
def splitnSlash6 (s : String) : List String :=
  let ps := splitCharsOnSlash s.data
  if ps.length ≤ 6 then ps.map (fun cs => String.mk cs)
  else (ps.take 5).map (fun cs => String.mk cs) ++ [String.mk (joinCharsWithSlash (ps.drop 5))]

/-- `usize::MAX` on the 64-bit targets nativelink builds for. -/
def usizeMax : Nat := 2 ^ 64 - 1

/-- Rust `str::parse::<usize>()`: an optional leading plus sign, then one
or more ASCII digits, rejecting values above `usize::MAX`. -/
def parseUsize (s : String) : Option Nat :=
  let t := match s.data with
    | c :: rest => if c = '+' then rest else s.data
    | [] => []
  if t.length = 0 then none
  else if t.all Char.isDigit then
    let n := t.foldl (fun acc c => acc * 10 + (c.toNat - 48)) 0
    if n ≤ usizeMax then some n else none
  else none

/-- `ResourceInfo`: the parsed view of a resource name. -/
structure ResourceInfo where
  instance_name : String
  uuid : Option String
  hash : String
  expected_size : Nat
deriving DecidableEq, Repr

/-- The iterator-style consumption of the `splitn` pieces performed by
`ResourceInfo::new`, clause by clause: `parts.next()` for the instance
name, then `blobs_or_uploads`; if that is the literal `uploads`, a uuid and
a second `blobs_or_uploads` are consumed; the (possibly re-read) segment
must be the literal `blobs`; then the hash segment (unvalidated) and the
size segment, which must parse as `usize`.  Any later pieces the iterator
still holds are ignored. -/
def resourceInfoNewParts : List String → Option ResourceInfo
  | [] => none
  | instanceName :: rest =>
    match rest with
    | [] => none
    | blobsOrUploads :: rest2 =>
      if blobsOrUploads = "uploads" then
        match rest2 with
        | [] => none
        | uuid :: rest3 =>
          match rest3 with
          | [] => none
          | blobsLit :: rest4 =>
            if blobsLit ≠ "blobs" then none
            else
              match rest4 with
              | [] => none
              | hash :: rest5 =>
                match rest5 with
                | [] => none
                | rawSize :: _ =>
                  (parseUsize rawSize).map fun n =>
                    { instance_name := instanceName, uuid := some uuid,
                      hash := hash, expected_size := n }
      else
        if blobsOrUploads ≠ "blobs" then none
        else
          match rest2 with
          | [] => none
          | hash :: rest3 =>
            match rest3 with
            | [] => none
            | rawSize :: _ =>
              (parseUsize rawSize).map fun n =>
                { instance_name := instanceName, uuid := none,
                  hash := hash, expected_size := n }

/-- `ResourceInfo::new(resource_name)`. -/
def resourceInfoNew (resource_name : String) : Option ResourceInfo :=
  resourceInfoNewParts (splitnSlash6 resource_name)

/-- The claim's well-formedness condition on the hash segment: 64 lowercase
hexadecimal characters. -/
def isLowercaseHex64 (s : String) : Bool :=
  s.length = 64 && s.toList.all fun c => c.isDigit || (Char.toNat c ≥ 97 && Char.toNat c ≤ 102)

/-- Declarative shape of the upload form, following the specification's
words: exactly the six segments
`{instance}/uploads/{uuid}/blobs/{hash}/{size}` with the literal segments
in place and a parseable size. -/
def uploadsForm : List String → Option ResourceInfo
  | [instanceName, uploadsLit, uuid, blobsLit, hash, rawSize] =>
    if uploadsLit = "uploads" ∧ blobsLit = "blobs" then
      (parseUsize rawSize).map fun n =>
        { instance_name := instanceName, uuid := some uuid,
          hash := hash, expected_size := n }
    else none
  | _ => none

/-- Declarative shape of the read form, following the specification's
words: segments `{instance}/blobs/{hash}/{size}` with the literal `blobs`
segment and a parseable size, trailing segments permitted and ignored. -/
def blobsForm : List String → Option ResourceInfo
  | instanceName :: blobsLit :: hash :: rawSize :: _ =>
    if blobsLit = "blobs" then
      (parseUsize rawSize).map fun n =>
        { instance_name := instanceName, uuid := none,
          hash := hash, expected_size := n }
    else none
  | _ => none

/-- The declarative form of the parser: the upload form if it matches,
otherwise the read form, on the at-most-six `splitn` pieces. -/
def resourceInfoSpec (s : String) : Option ResourceInfo :=
  match uploadsForm (splitnSlash6 s) with
  | some ri => some ri
  | none => blobsForm (splitnSlash6 s)

theorem splitnSlash6_length_le (s : String) : (splitnSlash6 s).length ≤ 6 := by
  unfold splitnSlash6
  by_cases hl : (splitCharsOnSlash s.data).length ≤ 6
  · simp [hl]
  · simp only [hl, if_false]
    simp only [List.length_append, List.length_map, List.length_take,
      List.length_cons, List.length_nil]
    omega

theorem resourceInfoNewParts_eq_forms (ps : List String) (h : ps.length ≤ 6) :
    resourceInfoNewParts ps =
      match uploadsForm ps with
      | some ri => some ri
      | none => blobsForm ps := by
  match ps with
  | [] => rfl
  | [a] => rfl
  | [a, b] =>
    by_cases hb : b = "uploads" <;> by_cases hb2 : b = "blobs" <;>
      simp [resourceInfoNewParts, uploadsForm, blobsForm, hb, hb2]
  | [a, b, c] =>
    by_cases hb : b = "uploads" <;> by_cases hb2 : b = "blobs" <;>
      simp [resourceInfoNewParts, uploadsForm, blobsForm, hb, hb2]
  | [a, b, c, d] =>
    by_cases hb : b = "uploads" <;> by_cases hb2 : b = "blobs" <;>
      by_cases hd : d = "blobs" <;>
        simp [resourceInfoNewParts, uploadsForm, blobsForm, hb, hb2, hd]
  | [a, b, c, d, e] =>
    by_cases hb : b = "uploads" <;> by_cases hb2 : b = "blobs" <;>
      by_cases hd : d = "blobs" <;>
        simp [resourceInfoNewParts, uploadsForm, blobsForm, hb, hb2, hd]
  | [a, b, c, d, e, f] =>
    by_cases hb : b = "uploads" <;> by_cases hb2 : b = "blobs" <;>
      by_cases hd : d = "blobs" <;>
        simp [resourceInfoNewParts, uploadsForm, blobsForm, hb, hb2, hd] <;>
          cases parseUsize f <;> simp
  | a :: b :: c :: d :: e :: f :: g :: rest =>
    exfalso
    simp only [List.length_cons] at h
    omega

end ResourceName

/-- C9 counterexample.  The claim requires a successful parse to have a
64-lowercase-hex hash segment; the parser in `resource_info.rs` never
inspects the hash segment, so `a/blobs/zz/0` parses successfully with the
two-character non-hex hash `zz`. -/
theorem resource_name_parses_without_hash_validation :
    ResourceName.resourceInfoNew "a/blobs/zz/0" =
        some { instance_name := "a", uuid := none, hash := "zz", expected_size := 0 } ∧
      ResourceName.isLowercaseHex64 "zz" = false := by
  constructor
  · rfl
  · rfl

/-- C9 (amended).  For every input string, parsing succeeds iff the at-most
six `splitn(6, '/')` pieces match
`{instance}/uploads/{uuid}/blobs/{hash}/{size}` exactly (literal segments
`uploads` and `blobs`, size parsing as `usize`) or start with
`{instance}/blobs/{hash}/{size}` (literal `blobs`, size parsing as
`usize`, trailing pieces ignored); the hash segment is not validated at
parse time; and on success the returned fields are exactly those
segments. -/
theorem resource_info_new_eq_declarative_forms (s : String) :
    ResourceName.resourceInfoNew s = ResourceName.resourceInfoSpec s :=
  ResourceName.resourceInfoNewParts_eq_forms _ (ResourceName.splitnSlash6_length_le s)

/-! ## The bytestream write stream wrapper

From `src/cas/grpc_service/bytestream_server.rs`:
`WriteRequestStreamWrapper::next` and the receive loop of
`ByteStreamServer::inner_write`.  A `WriteRequest` past the first one
carries only its `data` payload and `finish_write` flag (the resource name
is read from the first message only, before the loop starts; it does not
affect the byte accounting modelled here).  `next()` keeps the last
returned message as `current_msg`; on each later call it first returns
`None` if `current_msg.finish_write` was set (after checking
`bytes_received == expected_size`), then errors if `bytes_received`
exceeds `expected_size`, then pulls the next message from the stream
(erroring if the stream is exhausted) and adds its length to
`bytes_received`.  `inner_write` pumps the wrapper until `None` and
responds with `committed_size = bytes_received`. -/

namespace ByteStreamWrite

/-- A `WriteRequest` as seen by the byte-accounting wrapper. -/
structure WriteRequest where
  data : Bytes
  finish_write : Bool
deriving DecidableEq, Repr

/-- Sum of the payload lengths of a message list. -/
def sumLen (l : List WriteRequest) : Nat :=
  (l.map fun m => m.data.length).sum

/-- The `inner_write` receive loop driving `WriteRequestStreamWrapper::next`,
with the wrapper state after the first call inlined: `current` is the last
message handed out, `rest` the stream's remaining messages, and
`bytesReceived` the running total including `current`. -/
def writeLoop (expected : Nat) : WriteRequest → List WriteRequest → Nat → Except String Nat
  | current, rest, bytesReceived =>
    if current.finish_write then
      if bytesReceived ≠ expected then .error "Did not send enough data"
      else .ok bytesReceived
    else if bytesReceived > expected then .error "Sent too much data"
    else
      match rest with
      | [] => .error "Expected WriteRequest struct in stream"
      | m :: rest2 => writeLoop expected m rest2 (bytesReceived + m.data.length)

/-- `ByteStreamServer::inner_write` at the wrapper level: consume the first
message (`WriteRequestStreamWrapper::from` plus the first `next()`), run
the loop, and on success answer with `committed_size = bytes_received`. -/
def innerWrite (msgs : List WriteRequest) (expected : Nat) : Except String Nat :=
  match msgs with
  | [] => .error "Expected WriteRequest struct in stream"
  | m :: rest => writeLoop expected m rest m.data.length

theorem writeLoop_ok (expected : Nat) :
    ∀ (rest : List WriteRequest) (current : WriteRequest) (bytes c : Nat),
      writeLoop expected current rest bytes = .ok c →
      c = expected ∧
        ∃ k, k ≤ rest.length ∧ bytes + sumLen (rest.take k) = c ∧
          (if k = 0 then current.finish_write = true
           else (rest.getD (k - 1) ⟨[], false⟩).finish_write = true) ∧
          ∀ j, j ≤ k → bytes + sumLen (rest.take j) ≤ expected := by
  intro rest
  induction rest with
  | nil =>
    intro current bytes c hok
    unfold writeLoop at hok
    by_cases hf : current.finish_write
    · simp only [hf, if_true] at hok
      by_cases hbe : bytes = expected
      · have hok' : (Except.ok bytes : Except String Nat) = Except.ok c := by simpa [hbe] using hok
        have hbc : bytes = c := by injection hok'
        refine ⟨by omega, 0, by omega, ?_, by simp [hf], ?_⟩
        · simp only [List.take_nil, List.take_zero, sumLen, List.map_nil, List.sum_nil]
          omega
        · intro j hj
          interval_cases j
          simp only [List.take_nil, List.take_zero, sumLen, List.map_nil, List.sum_nil]
          omega
      · simp [hbe] at hok
    · simp [hf] at hok
      split at hok <;> simp_all
  | cons m rest2 ih =>
    intro current bytes c hok
    unfold writeLoop at hok
    by_cases hf : current.finish_write
    · simp only [hf, if_true] at hok
      by_cases hbe : bytes = expected
      · have hok' : (Except.ok bytes : Except String Nat) = Except.ok c := by simpa [hbe] using hok
        have hbc : bytes = c := by injection hok'
        refine ⟨by omega, 0, by omega, ?_, by simp [hf], ?_⟩
        · simp only [List.take_nil, List.take_zero, sumLen, List.map_nil, List.sum_nil]
          omega
        · intro j hj
          interval_cases j
          simp only [List.take_nil, List.take_zero, sumLen, List.map_nil, List.sum_nil]
          omega
      · simp [hbe] at hok
    · simp only [hf, if_false, gt_iff_lt] at hok
      by_cases hover : expected < bytes
      · simp [hover] at hok
      · simp only [hover, if_false, reduceIte] at hok
        obtain ⟨hc, k', hk'len, hsum, hfin, hbound⟩ :=
          ih m (bytes + m.data.length) c hok
        refine ⟨hc, k' + 1, by simpa using Nat.succ_le_succ hk'len, ?_, ?_, ?_⟩
        · simpa [sumLen, Nat.add_assoc] using hsum
        · match k' with
          | 0 => simpa using hfin
          | k'' + 1 =>
            simp only [Nat.add_sub_cancel, if_neg (Nat.succ_ne_zero _)]
            rw [List.getD_cons_succ]
            simpa using hfin
        · intro j hj
          match j with
          | 0 => simpa [sumLen] using Nat.le_of_not_lt hover
          | j' + 1 =>
            have := hbound j' (by omega)
            simpa [sumLen, Nat.add_assoc] using this

end ByteStreamWrite

/-- C4. For every bytestream write stream: on success the loop consumed
some non-empty prefix of `k` messages; the response's `committed_size` is
the total bytes received over that prefix; the total equals
`expected_size`; the message at which the loop stopped carried
`finish_write` (so a stream ending without `finish_write`, or with the
wrong total at `finish_write`, fails); and no intermediate byte total
exceeds `expected_size` (so exceeding `expected_size` makes the write
fail). -/
theorem inner_write_success_invariants (msgs : List ByteStreamWrite.WriteRequest)
    (expected c : Nat) (hok : ByteStreamWrite.innerWrite msgs expected = .ok c) :
    c = expected ∧
      ∃ k, 1 ≤ k ∧ k ≤ msgs.length ∧
        ByteStreamWrite.sumLen (msgs.take k) = c ∧
        (msgs.getD (k - 1) ⟨[], false⟩).finish_write = true ∧
        ∀ j, j ≤ k → ByteStreamWrite.sumLen (msgs.take j) ≤ expected := by
  match msgs with
  | [] => simp [ByteStreamWrite.innerWrite] at hok
  | m :: rest =>
    obtain ⟨hc, k', hk'len, hsum, hfin, hbound⟩ :=
      ByteStreamWrite.writeLoop_ok expected rest m m.data.length c hok
    refine ⟨hc, k' + 1, by omega, by simpa using Nat.succ_le_succ hk'len, ?_, ?_, ?_⟩
    · simpa [ByteStreamWrite.sumLen] using hsum
    · match k' with
      | 0 => simpa using hfin
      | k'' + 1 =>
        simp only [Nat.add_sub_cancel]
        rw [List.getD_cons_succ]
        simpa using hfin
    · intro j hj
      match j with
      | 0 => simp [ByteStreamWrite.sumLen]
      | j' + 1 =>
        have := hbound j' (by omega)
        simpa [ByteStreamWrite.sumLen] using this

/-- Witness for C4 at a concrete stream: two data messages totalling 3
bytes with `finish_write` on the last, against `expected_size = 3`. -/
theorem inner_write_success_invariants_witness :
    ByteStreamWrite.innerWrite [⟨[1, 2], false⟩, ⟨[3], true⟩] 3 = .ok 3 ∧
      (3 = 3 ∧
        ∃ k, 1 ≤ k ∧ k ≤ ([⟨[1, 2], false⟩, ⟨[3], true⟩] :
              List ByteStreamWrite.WriteRequest).length ∧
          ByteStreamWrite.sumLen (([⟨[1, 2], false⟩, ⟨[3], true⟩] :
              List ByteStreamWrite.WriteRequest).take k) = 3 ∧
          (([⟨[1, 2], false⟩, ⟨[3], true⟩] :
              List ByteStreamWrite.WriteRequest).getD (k - 1) ⟨[], false⟩).finish_write = true ∧
          ∀ j, j ≤ k → ByteStreamWrite.sumLen (([⟨[1, 2], false⟩, ⟨[3], true⟩] :
              List ByteStreamWrite.WriteRequest).take j) ≤ 3) :=
  ⟨rfl, inner_write_success_invariants [⟨[1, 2], false⟩, ⟨[3], true⟩] 3 3 rfl⟩

/-! ## The buffered byte channel

From `src/util/buf_channel.rs`.  A channel pair is a bounded `mpsc` data
channel carrying `Result<Bytes, Error>` items plus a `oneshot` close
channel flowing from the reader back to the writer.  The combined state of
both halves and both channels is modelled explicitly; the capacity bound
only affects scheduling (a full queue blocks the producer) and not the
values exchanged, so the queue is unbounded here.  Operations that can
block or hit an `assert!` return `Option`, with `none` marking the blocked
or panicking call. -/

namespace BufChannel

/-- The joint state of a `DropCloserWriteHalf`/`DropCloserReadHalf` pair. -/
structure ChannelState where
  /-- In-flight items of the `mpsc` data channel, oldest first: `Ok` chunks
  from `send`, or the `Err` pushed by the write half's `Drop`. -/
  queue : List (Except String Bytes)
  /-- Whether the writer's `tx` field is still `Some` (no `send_eof`, no
  drop, no failed send).  Once false and `queue` is empty, `rx.recv()`
  yields `None`. -/
  txAlive : Bool
  /-- Whether the read half has been dropped; a dropped reader makes
  `tx.send(..)` fail. -/
  readerDropped : Bool
  /-- Whether the reader still holds its `close_tx` oneshot sender (it is
  consumed either by sending the close signal or by dropping the reader). -/
  closeTxAlive : Bool
  /-- Whether the writer still holds `close_rx` (false once the write half
  itself is gone). -/
  closeRxAlive : Bool
  /-- The value sent on the `close_tx` oneshot, once sent. -/
  closeSignal : Option (Except String Unit)
  /-- `close_after_size`: remaining bytes until the reader treats the
  stream as closed (`u64::MAX` by default). -/
  closeAfterSize : Nat
deriving Repr

/-- `DropCloserWriteHalf::send(buf)`.  `none` models the
`assert!(buf_len != 0)` panic. -/
def send (s : ChannelState) (buf : Bytes) : Option (Except String Unit × ChannelState) :=
  if s.txAlive = false then some (.error "Tried to send while stream is closed", s)
  else if buf.length = 0 then none
  else if s.readerDropped then
    some (.error "Failed to write to data, receiver disconnected", { s with txAlive := false })
  else some (.ok (), { s with queue := s.queue ++ [.ok buf] })

/-- The state change `send_eof` performs before awaiting: `self.tx = None`,
ending the sender side of the data channel.  `none` models the
`assert!(self.tx.is_some())` panic. -/
def sendEofStart (s : ChannelState) : Option ChannelState :=
  if s.txAlive then some { s with txAlive := false } else none

/-- The completion of the writer's pending `send_eof().await`, resolved by
the `close_rx` oneshot: the value the reader sent, or the "Receiver went
away before receiving EOF" error once the reader dropped `close_tx`
unused; `none` while the reader still holds `close_tx` silently (the await
is still pending). -/
def sendEofAwait (s : ChannelState) : Option (Except String Unit) :=
  match s.closeSignal with
  | some (Except.ok ()) => some (.ok ())
  | some (Except.error e) => some (.error e)
  | none =>
    if s.closeTxAlive then none
    else some (.error "Receiver went away before receiving EOF")

/-- `Drop for DropCloserWriteHalf`: if `tx` is still held (no EOF was
sent), a task pushes the "Writer was dropped before EOF was sent" error
into the data channel (the push is lost if the receiver is gone); the
writer's `close_rx` goes away with it. -/
def writerDrop (s : ChannelState) : ChannelState :=
  if s.txAlive then
    if s.readerDropped then { s with txAlive := false, closeRxAlive := false }
    else
      { s with txAlive := false, closeRxAlive := false,
               queue := s.queue ++ [.error "Writer was dropped before EOF was sent"] }
  else { s with closeRxAlive := false }

/-- Dropping the read half: `rx` and, if still held, the `close_tx`
oneshot sender are dropped, cancelling the writer's `close_rx`. -/
def readerDrop (s : ChannelState) : ChannelState :=
  { s with readerDropped := true, closeTxAlive := false }

/-- `DropCloserReadHalf::recv()` on states where it would not block.
`none` models a blocked call (empty queue with a live sender) or one of
the `assert!` panics. -/
def recv (s : ChannelState) : Option (Except String Bytes × ChannelState) :=
  match s.queue with
  | Except.ok chunk :: rest =>
    if chunk.length = 0 then none
    else if s.closeAfterSize < chunk.length then none
    else if s.closeAfterSize - chunk.length = 0 then
      if s.closeTxAlive = false then none
      else if s.closeRxAlive then
        some (.ok chunk, { s with queue := rest, closeAfterSize := 0,
                                  closeTxAlive := false, closeSignal := some (.ok ()) })
      else
        some (.error "Failed to send closing ok message to write with size",
              { s with queue := rest, closeAfterSize := 0, closeTxAlive := false })
    else some (.ok chunk, { s with queue := rest,
                                   closeAfterSize := s.closeAfterSize - chunk.length })
  | Except.error e :: rest => some (.error e, { s with queue := rest })
  | [] =>
    if s.txAlive then none
    else if s.closeTxAlive then
      if s.closeRxAlive then
        some (.ok [], { s with closeTxAlive := false, closeSignal := some (.ok ()) })
      else
        some (.error "Failed to send closing ok message to write",
              { s with closeTxAlive := false })
    else some (.ok [], s)

end BufChannel

/-- C5.  Byte-channel failure semantics: (1) if the write half is dropped
without `send_eof`, the reader's next `recv` returns an error; (2) if the
read half is dropped before it observed EOF and before `close_after_size`
bytes were received (no close signal was ever sent), a pending or later
`send_eof` resolves with an error; (3) after a clean EOF (writer closed
`tx` via `send_eof`, queue drained), `recv` returns an empty chunk and the
writer's pending `send_eof` resolves with `Ok`. -/
theorem buf_channel_failure_semantics :
    (∀ s : BufChannel.ChannelState, s.queue = [] → s.txAlive = true →
      s.readerDropped = false →
      BufChannel.recv (BufChannel.writerDrop s) =
        some (.error "Writer was dropped before EOF was sent",
              { BufChannel.writerDrop s with queue := [] })) ∧
    (∀ s : BufChannel.ChannelState, s.closeSignal = none →
      BufChannel.sendEofAwait (BufChannel.readerDrop s) =
        some (.error "Receiver went away before receiving EOF")) ∧
    (∀ s : BufChannel.ChannelState, s.queue = [] → s.txAlive = false →
      s.closeTxAlive = true → s.closeRxAlive = true → s.closeSignal = none →
      BufChannel.recv s =
        some (.ok [], { s with closeTxAlive := false, closeSignal := some (.ok ()) }) ∧
      BufChannel.sendEofAwait
          { s with closeTxAlive := false, closeSignal := some (.ok ()) } =
        some (.ok ())) := by
  refine ⟨?_, ?_, ?_⟩
  · intro s hq htx hrd
    simp [BufChannel.writerDrop, BufChannel.recv, htx, hrd, hq]
  · intro s hsig
    simp [BufChannel.readerDrop, BufChannel.sendEofAwait, hsig]
  · intro s hq htx hctx hcrx hsig
    constructor
    · simp [BufChannel.recv, hq, htx, hctx, hcrx]
    · simp [BufChannel.sendEofAwait]

/-- Witness for C5 at concrete channel states: a fresh open pair for (1)
and (2), and a pair whose writer has sent EOF for (3). -/
theorem buf_channel_failure_semantics_witness :
    (BufChannel.recv (BufChannel.writerDrop ⟨[], true, false, true, true, none, 10⟩) =
      some (.error "Writer was dropped before EOF was sent",
            { BufChannel.writerDrop ⟨[], true, false, true, true, none, 10⟩ with queue := [] }) ∧
     BufChannel.sendEofAwait (BufChannel.readerDrop ⟨[], true, false, true, true, none, 10⟩) =
      some (.error "Receiver went away before receiving EOF")) ∧
    (BufChannel.recv ⟨[], false, false, true, true, none, 10⟩ =
      some (.ok [], { (⟨[], false, false, true, true, none, 10⟩ : BufChannel.ChannelState) with
                      closeTxAlive := false, closeSignal := some (.ok ()) }) ∧
     BufChannel.sendEofAwait
        { (⟨[], false, false, true, true, none, 10⟩ : BufChannel.ChannelState) with
          closeTxAlive := false, closeSignal := some (.ok ()) } =
      some (.ok ())) :=
  ⟨⟨buf_channel_failure_semantics.1 ⟨[], true, false, true, true, none, 10⟩ rfl rfl rfl,
    buf_channel_failure_semantics.2.1 ⟨[], true, false, true, true, none, 10⟩ rfl⟩,
   buf_channel_failure_semantics.2.2 ⟨[], false, false, true, true, none, 10⟩ rfl rfl rfl rfl rfl⟩

/-! ## The scheduler state manager

From `src/nativelink-scheduler/src/scheduler_state/state_manager.rs`,
`src/nativelink-scheduler/src/scheduler_state/workers.rs` and
`src/nativelink-scheduler/src/simple_scheduler.rs`.

The containers are modelled by lists: `queued_actions_set`
(`HashSet<Arc<ActionInfo>>`) as a list of `ActionInfo`, `queued_actions`
(`BTreeMap<Arc<ActionInfo>, AwaitedAction>`) and `active_actions`
(`HashMap<Arc<ActionInfo>, AwaitedAction>`) as association lists, and the
worker pool (`LruCache<WorkerId, Worker>`) as a list in most-recently-used
order.  Hash-based containers compare `ActionInfo` by its dedup identity
(`unique_qualifier`); the `BTreeMap` compares by its order, whose ties
break on the identity fields, so `Ord`-equality is structural equality of
the modelled fields.  Both facts are modelled from the spec
(`action_messages.rs` is not among the sources).  Each `AwaitedAction`'s
watch channel is modelled in a registry of latest broadcast stages, keyed
by the channel id. -/

namespace Scheduler

/-- Error kinds (`nativelink_error::Code`) used by the scheduler. -/
inductive ErrorCode where
  | internal
  | notFound
  | invalidArgument
  | unavailable
  | resourceExhausted
  | unimplemented
deriving DecidableEq, Repr

/-- An error value: a kind plus ordered context messages. -/
structure SchedErr where
  code : ErrorCode
  messages : List String
deriving DecidableEq, Repr

/-- Modelled from the spec (`error.rs` is not among the sources): merging
keeps the original error's kind-significant information and appends the
newer context so the most recent message is terminal. -/
def SchedErr.merge (a b : SchedErr) : SchedErr :=
  ⟨a.code, a.messages ++ b.messages⟩

/-- Modelled from the spec (`action_messages.rs` is not among the
sources): the sentinel exit code reported for scheduler-side internal
failures; its concrete value is immaterial to the claims. -/
def INTERNAL_ERROR_EXIT_CODE : Int := -178

/-- `ExecutionMetadata` restricted to the one field the scheduler writes:
the reporting worker's id (`none` renders the default empty string). -/
structure ExecutionMetadata where
  worker : Option Nat
deriving DecidableEq, Repr

/-- `ActionResult` restricted to the fields the retry path writes. -/
structure ActionResult where
  exitCode : Int
  error : Option SchedErr
  executionMetadata : ExecutionMetadata
deriving DecidableEq, Repr

/-- Modelled from the spec and the repository's own scheduler tests
(`scheduler_test.rs` asserts `exit_code = INTERNAL_ERROR_EXIT_CODE` on the
defaulted result): `ActionResult::default()`. -/
def ActionResult.mkDefault : ActionResult :=
  ⟨INTERNAL_ERROR_EXIT_CODE, none, ⟨none⟩⟩

/-- `ActionStage`. -/
inductive ActionStage where
  | unknown
  | cacheCheck
  | queued
  | executing
  | completed (result : ActionResult)
  | errored (err : SchedErr) (result : ActionResult)
deriving DecidableEq, Repr

/-- Modelled from the spec: `is_finished` iff `Completed` or `Error`. -/
def ActionStage.isFinished : ActionStage → Bool
  | .completed _ => true
  | .errored _ _ => true
  | _ => false

/-- Modelled from the spec: the stages that carry an `ActionResult`. -/
def ActionStage.hasActionResult : ActionStage → Bool
  | .completed _ => true
  | .errored _ _ => true
  | _ => false

/-- The dedup identity `ActionInfoHashKey` (`(digest, salt)`), abstracted
to a `Nat`. -/
abbrev Qualifier := Nat

/-- A worker id (`WorkerId`, a u128), abstracted to a `Nat`. -/
abbrev WorkerId := Nat

/-- `ActionInfo` restricted to the fields the scheduler state machine
reads: the dedup identity, the queue priority and the insert timestamp. -/
structure ActionInfo where
  uq : Qualifier
  priority : Int
  insertTimestamp : Nat
deriving DecidableEq, Repr

/-- `AwaitedAction`: the server-side record for one submitted action.  The
watch channel is represented by its id into the channel registry. -/
structure AwaitedAction where
  actionInfo : ActionInfo
  currentStage : ActionStage
  notifyId : Nat
  attempts : Nat
  lastError : Option SchedErr
  workerId : Option WorkerId
deriving DecidableEq, Repr

/-- A worker (`worker.rs` is not among the sources; the bookkeeping
semantics here — `can_accept_work`, `complete_action`, recording a
dispatched action in `running_action_infos` — are modelled from the
spec).  `txAlive` states whether the worker's update channel still
accepts messages. -/
structure Worker where
  id : WorkerId
  txAlive : Bool
  lastUpdateTimestamp : Nat
  runningActionInfos : List ActionInfo
  isPaused : Bool
  isDraining : Bool
deriving DecidableEq, Repr

/-- `Worker::can_accept_work`: not paused and not draining. -/
def Worker.canAcceptWork (w : Worker) : Bool :=
  !w.isPaused && !w.isDraining

/-- `Worker::has_actions`. -/
def Worker.hasActions (w : Worker) : Bool :=
  !w.runningActionInfos.isEmpty

/-- Modelled from the spec: `Worker::complete_action` removes the entry
from `running_action_infos` and clears `is_paused` unless the worker still
holds other actions. -/
def Worker.completeAction (w : Worker) (info : ActionInfo) : Worker :=
  let rest := w.runningActionInfos.filter fun ai => ai.uq ≠ info.uq
  { w with runningActionInfos := rest,
           isPaused := if rest.isEmpty then false else w.isPaused }

/-- The registry of watch channels: latest broadcast stage per channel id. -/
abbrev Channels := List (Nat × ActionStage)

/-- A watch-channel `send`: replace the latest value of the channel. -/
def channelSend : Channels → Nat → ActionStage → Channels
  | [], id, stage => [(id, stage)]
  | (id', st') :: rest, id, stage =>
      if id' = id then (id, stage) :: rest
      else (id', st') :: channelSend rest id stage

/-- The latest value a subscriber of the channel observes. -/
def channelLatest : Channels → Nat → Option ActionStage
  | [], _ => none
  | (id', st') :: rest, id => if id' = id then some st' else channelLatest rest id

/-- The scheduler's mutable state (`StateManagerImpl`), with
`max_job_retries` alongside. -/
structure SchedulerState where
  queuedActionsSet : List ActionInfo
  queuedActions : List (ActionInfo × AwaitedAction)
  workers : List Worker
  activeActions : List (ActionInfo × AwaitedAction)
  recentlyCompletedActions : List (Qualifier × ActionStage)
  channels : Channels
  maxJobRetries : Nat
deriving Repr

/-- `HashSet<Arc<ActionInfo>>::take`/`remove` by the dedup identity:
remove the first element with the given qualifier, returning it. -/
def setTake (uq : Qualifier) : List ActionInfo → Option (ActionInfo × List ActionInfo)
  | [] => none
  | x :: xs =>
    if x.uq = uq then some (x, xs)
    else (setTake uq xs).map fun r => (r.1, x :: r.2)

/-- `HashSet::get`/`contains` by the dedup identity. -/
def setFind (uq : Qualifier) : List ActionInfo → Option ActionInfo
  | [] => none
  | x :: xs => if x.uq = uq then some x else setFind uq xs

/-- `HashSet::insert`: on an `Eq` collision the existing element is kept. -/
def setInsert (l : List ActionInfo) (x : ActionInfo) : List ActionInfo :=
  if (setFind x.uq l).isSome then l else x :: l

/-- `BTreeMap::remove_entry(&k)` under structural `Ord`-equality. -/
def btreeRemoveEntry (k : ActionInfo) : List (ActionInfo × AwaitedAction) →
    Option ((ActionInfo × AwaitedAction) × List (ActionInfo × AwaitedAction))
  | [] => none
  | (k', v) :: rest =>
    if k' = k then some ((k', v), rest)
    else (btreeRemoveEntry k rest).map fun r => (r.1, (k', v) :: r.2)

/-- `BTreeMap::insert`, replacing an `Ord`-equal key. -/
def btreeInsert (m : List (ActionInfo × AwaitedAction)) (k : ActionInfo)
    (v : AwaitedAction) : List (ActionInfo × AwaitedAction) :=
  match btreeRemoveEntry k m with
  | some (_, rest) => (k, v) :: rest
  | none => (k, v) :: m

/-- `HashMap::remove_entry` by the dedup identity (`active_actions`). -/
def activeRemoveEntry (uq : Qualifier) : List (ActionInfo × AwaitedAction) →
    Option ((ActionInfo × AwaitedAction) × List (ActionInfo × AwaitedAction))
  | [] => none
  | (k', v) :: rest =>
    if k'.uq = uq then some ((k', v), rest)
    else (activeRemoveEntry uq rest).map fun r => (r.1, (k', v) :: r.2)

/-- `HashMap::get` by the dedup identity. -/
def activeFind (uq : Qualifier) : List (ActionInfo × AwaitedAction) →
    Option (ActionInfo × AwaitedAction)
  | [] => none
  | (k', v) :: rest => if k'.uq = uq then some (k', v) else activeFind uq rest

/-- `HashMap::insert`: on an `Eq` collision the stored key is kept and the
value replaced; otherwise the pair is appended. -/
def activeInsert : List (ActionInfo × AwaitedAction) → ActionInfo → AwaitedAction →
    List (ActionInfo × AwaitedAction)
  | [], k, v => [(k, v)]
  | (k', v') :: rest, k, v =>
    if k'.uq = k.uq then (k', v) :: rest
    else (k', v') :: activeInsert rest k v

/-- `HashSet<CompletedAction>::insert` (keyed by the qualifier; the
existing entry is kept on a collision). -/
def completedInsert (l : List (Qualifier × ActionStage)) (uq : Qualifier)
    (stage : ActionStage) : List (Qualifier × ActionStage) :=
  if l.any fun p => p.1 == uq then l else (uq, stage) :: l

/-- `LruCache` removal (`pop`, and the removal half of `get_mut`): find
the worker with the given id and take it out of the order. -/
def lruRemove (id : WorkerId) : List Worker → Option (Worker × List Worker)
  | [] => none
  | w :: ws =>
    if w.id = id then some (w, ws)
    else (lruRemove id ws).map fun r => (r.1, w :: r.2)

/-- `LruCache::put`: replace any entry with the same id and insert at the
most-recently-used (front) position. -/
def lruPut (ws : List Worker) (w : Worker) : List Worker :=
  match lruRemove w.id ws with
  | some (_, rest) => w :: rest
  | none => w :: ws

/-- The qualifiers in `queued_actions_set`. -/
def queuedUqs (s : SchedulerState) : List Qualifier :=
  s.queuedActionsSet.map ActionInfo.uq

/-- The qualifiers keying `active_actions`. -/
def activeUqs (s : SchedulerState) : List Qualifier :=
  s.activeActions.map fun e => e.1.uq

/-- The terminal context message of the retry-exhaustion error. -/
def jobCancelledMsg : String :=
  "Job cancelled because it attempted to execute too many times and failed"

/-- `StateManagerImpl::retry_action` (the identical logic also sits in
`SimpleSchedulerImpl::retry_action` in `simple_scheduler.rs`): take the
action out of `active_actions`; if its attempts have reached
`max_job_retries`, broadcast a terminal `Completed` result carrying the
merged error and the reporting worker's id and do not re-queue; otherwise
broadcast `Queued` and re-insert the action into both queued containers
under its unchanged `ActionInfo`. -/
def retryAction (s : SchedulerState) (actionInfo : ActionInfo) (workerId : WorkerId)
    (err : SchedErr) : SchedulerState :=
  match activeRemoveEntry actionInfo.uq s.activeActions with
  | none => s
  | some ((_, awaited), rest) =>
    if awaited.attempts ≥ s.maxJobRetries then
      let stage := ActionStage.completed
        { ActionResult.mkDefault with
            executionMetadata := ⟨some workerId⟩,
            error := some (err.merge ⟨.internal, [jobCancelledMsg]⟩) }
      { s with activeActions := rest,
               channels := channelSend s.channels awaited.notifyId stage }
    else
      { s with activeActions := rest,
               channels := channelSend s.channels awaited.notifyId .queued,
               queuedActionsSet := setInsert s.queuedActionsSet actionInfo,
               queuedActions :=
                 btreeInsert s.queuedActions actionInfo
                   { awaited with currentStage := .queued } }

/-- `StateManagerImpl::immediate_evict_worker`: pop the worker, send a
best-effort `Disconnect`, and run the retry rule for every action it was
running. -/
def immediateEvictWorker (s : SchedulerState) (workerId : WorkerId)
    (err : SchedErr) : SchedulerState :=
  match lruRemove workerId s.workers with
  | none => s
  | some (worker, rest) =>
    worker.runningActionInfos.foldl
      (fun st ai => retryAction st ai workerId err)
      { s with workers := rest }

/-- `StateManagerImpl::worker_notify_run_action`: `workers.get_mut`
promotes the worker to the most-recently-used position;
`notify_update(RunAction)` records the action in `running_action_infos`
(modelled from the spec, `worker.rs` not among the sources) and sends on
the worker channel; a dead channel evicts the worker and fails the
dispatch. -/
def workerNotifyRunAction (s : SchedulerState) (workerId : WorkerId)
    (actionInfo : ActionInfo) : SchedulerState × Bool :=
  match lruRemove workerId s.workers with
  | none => (s, true)
  | some (worker, rest) =>
    let worker :=
      { worker with runningActionInfos :=
          if worker.runningActionInfos.any (fun ai => ai.uq == actionInfo.uq) then
            worker.runningActionInfos
          else actionInfo :: worker.runningActionInfos }
    let s1 := { s with workers := worker :: rest }
    if worker.txAlive then (s1, true)
    else
      (immediateEvictWorker s1 workerId
        ⟨.internal, ["Worker command failed, removing worker"]⟩, false)

/-- `worker_set_action_stage`: set the stage on `Ok`, or record
`last_error` on `Err`; broadcast the current state either way. -/
def workerSetActionStage (awaited : AwaitedAction)
    (stageResult : Except SchedErr ActionStage) (chans : Channels) :
    AwaitedAction × Channels :=
  match stageResult with
  | .ok stage =>
    ({ awaited with currentStage := stage }, channelSend chans awaited.notifyId stage)
  | .error e =>
    ({ awaited with lastError := some e },
     channelSend chans awaited.notifyId awaited.currentStage)

/-- `StateManagerImpl::worker_set_as_active`: move the action from the
queued containers to `active_actions`, assigning the worker, updating the
stage and incrementing `attempts`.  The `assert!` that
`queued_actions_set` held the key is modelled by the `none` result. -/
def workerSetAsActive (s : SchedulerState) (actionInfo : ActionInfo)
    (workerId : WorkerId) (stageResult : Except SchedErr ActionStage) :
    Option SchedulerState :=
  match btreeRemoveEntry actionInfo s.queuedActions with
  | none => some s
  | some ((k, awaited), restQ) =>
    match setTake k.uq s.queuedActionsSet with
    | none => none
    | some (_, restSet) =>
      let awaited := { awaited with workerId := some workerId }
      let (awaited, chans) := workerSetActionStage awaited stageResult s.channels
      let awaited := { awaited with attempts := awaited.attempts + 1 }
      some { s with queuedActions := restQ, queuedActionsSet := restSet,
                    channels := chans,
                    activeActions := activeInsert s.activeActions k awaited }

/-- `MatchingEngineStateManager::update_operation`: the dispatch step run
by `do_try_match` for one queued operation and the worker the matcher
chose. -/
def matchingUpdateOperation (s : SchedulerState) (uq : Qualifier)
    (maybeWorkerId : Option WorkerId)
    (stageResult : Except SchedErr ActionStage) : Option SchedulerState :=
  match setFind uq s.queuedActionsSet with
  | none => some s
  | some actionInfo =>
    match maybeWorkerId with
    | none => some s
    | some workerId =>
      match workerNotifyRunAction s workerId actionInfo with
      | (s1, true) => workerSetAsActive s1 actionInfo workerId stageResult
      | (s1, false) => some s1

/-- `StateManagerImpl::update_action_with_internal_error`.  The
`attempts -= 1` is `usize` arithmetic; every active action was dispatched
with `attempts += 1`, so `attempts ≥ 1` holds there and the truncated
`Nat` subtraction agrees with Rust. -/
def updateActionWithInternalError (s : SchedulerState) (workerId : WorkerId)
    (uq : Qualifier) (err : SchedErr) : SchedulerState :=
  match activeRemoveEntry uq s.activeActions with
  | none => s
  | some ((actionInfo, running), rest) =>
    let dueToBackpressure := err.code = ErrorCode.resourceExhausted
    let running :=
      if dueToBackpressure then { running with attempts := running.attempts - 1 }
      else running
    match running.workerId with
    | none => { s with activeActions := rest }
    | some runningWorkerId =>
      let running :=
        if runningWorkerId = workerId then { running with lastError := some err }
        else running
      let s1 := { s with activeActions := activeInsert rest actionInfo running }
      let s2 :=
        match lruRemove workerId s1.workers with
        | none => s1
        | some (worker, restW) =>
          let wasPaused := worker.canAcceptWork = false
          let worker := worker.completeAction actionInfo
          let worker :=
            if (wasPaused ∨ dueToBackpressure) ∧ worker.hasActions then
              { worker with isPaused := true }
            else worker
          { s1 with workers := worker :: restW }
      retryAction s2 actionInfo workerId err

/-- `WorkerStateManager::update_operation` with `Ok(action_stage)`: evict
the worker when the stage has no result or the wrong worker reports;
otherwise broadcast the stage, keeping non-terminal actions active and
archiving terminal ones into `recently_completed_actions` while clearing
the worker's bookkeeping (`workers.get_mut` promoting the worker). -/
def workerUpdateOperationOk (s : SchedulerState) (workerId : WorkerId)
    (uq : Qualifier) (stage : ActionStage) : SchedulerState :=
  if stage.hasActionResult = false then
    immediateEvictWorker s workerId
      ⟨.internal, ["Worker set the action_stage of running action without result. Removing worker."]⟩
  else
    match activeRemoveEntry uq s.activeActions with
    | none => s
    | some ((actionInfo, running), rest) =>
      if running.workerId ≠ some workerId then
        immediateEvictWorker
          { s with activeActions := activeInsert rest actionInfo running } workerId
          ⟨.internal,
           ["Got a result from a worker that should not be running the action, Removing worker"]⟩
      else
        let running := { running with currentStage := stage }
        let chans := channelSend s.channels running.notifyId stage
        if running.currentStage.isFinished = false then
          { s with channels := chans,
                   activeActions := activeInsert rest actionInfo running }
        else
          let s1 :=
            { s with channels := chans, activeActions := rest,
                     recentlyCompletedActions :=
                       completedInsert s.recentlyCompletedActions actionInfo.uq stage }
          match lruRemove workerId s1.workers with
          | none => s1
          | some (worker, restW) =>
            { s1 with workers := worker.completeAction actionInfo :: restW }

/-- `ClientStateManager::add_action`: dedup onto a running action, dedup
onto a queued action (raising its priority to the max and re-inserting),
or create a fresh `AwaitedAction` at stage `Queued`.  Returns the id of
the watch channel the caller subscribed to. -/
def addAction (s : SchedulerState) (actionInfo : ActionInfo) (freshId : Nat) :
    SchedulerState × Except SchedErr Nat :=
  match activeFind actionInfo.uq s.activeActions with
  | some (_, running) => (s, .ok running.notifyId)
  | none =>
    match setTake actionInfo.uq s.queuedActionsSet with
    | some (arcInfo, restSet) =>
      match btreeRemoveEntry arcInfo s.queuedActions with
      | none =>
        ({ s with queuedActionsSet := restSet },
         .error ⟨.internal,
           ["Internal error queued_actions and queued_actions_set should match"]⟩)
      | some ((origInfo, queuedAction), restQ) =>
        let newPriority := max origInfo.priority actionInfo.priority
        let arcInfo := { arcInfo with priority := newPriority }
        ({ s with queuedActions := btreeInsert restQ arcInfo queuedAction,
                  queuedActionsSet := setInsert restSet arcInfo },
         .ok queuedAction.notifyId)
    | none =>
      let aa : AwaitedAction :=
        { actionInfo := actionInfo, currentStage := .queued, notifyId := freshId,
          attempts := 0, lastError := none, workerId := none }
      ({ s with queuedActionsSet := setInsert s.queuedActionsSet actionInfo,
                queuedActions := btreeInsert s.queuedActions actionInfo aa,
                channels := channelSend s.channels freshId .queued },
       .ok freshId)

/-- `Workers::add_worker` plus `SimpleScheduler::add_worker`'s
eviction-on-failure: `put` at the most-recently-used position, then
`send_initial_connection_result` (failing iff the channel is dead, which
evicts the worker again). -/
def addWorkerOp (s : SchedulerState) (w : Worker) : SchedulerState :=
  let s1 := { s with workers := lruPut s.workers w }
  if w.txAlive then s1
  else
    immediateEvictWorker s1 w.id
      ⟨.internal, ["Failed to send initial connection result to worker"]⟩

/-- `Workers::refresh_lifetime` (`worker_keep_alive_received`): `get_mut`
promotes the worker even when the monotonicity check then fails; on
success the timestamp is updated. -/
def workerKeepAlive (s : SchedulerState) (workerId : WorkerId) (ts : Nat) :
    SchedulerState :=
  match lruRemove workerId s.workers with
  | none => s
  | some (w, rest) =>
    if w.lastUpdateTimestamp > ts then { s with workers := w :: rest }
    else { s with workers := { w with lastUpdateTimestamp := ts } :: rest }

/-- `WorkerScheduler::remove_worker`. -/
def removeWorkerOp (s : SchedulerState) (workerId : WorkerId) : SchedulerState :=
  immediateEvictWorker s workerId
    ⟨.internal, ["Received request to remove worker"]⟩

/-- `WorkerScheduler::remove_timedout_workers(now)`: walk the pool from
its least-recently-used end (`iter().rev()`) and — via `map_while` —
collect workers to evict only up to the first one whose
`last_update_timestamp` is fresh, then evict the collected ids. -/
def removeTimedoutWorkers (s : SchedulerState) (workerTimeoutS : Nat) (now : Nat) :
    SchedulerState :=
  let ids :=
    ((s.workers.reverse.takeWhile fun w =>
        w.lastUpdateTimestamp ≤ now - workerTimeoutS).map fun w => w.id)
  ids.foldl
    (fun st id => immediateEvictWorker st id
      ⟨.internal, ["Worker timed out, removing from pool"]⟩)
    s

/-- `SimpleSchedulerImpl::set_drain_worker`: `get_mut` promotes the
worker, then the draining flag is set. -/
def setDrainWorker (s : SchedulerState) (workerId : WorkerId) (isDraining : Bool) :
    SchedulerState :=
  match lruRemove workerId s.workers with
  | none => s
  | some (w, rest) => { s with workers := { w with isDraining := isDraining } :: rest }

/-- The public scheduler operations. -/
inductive SchedulerOp where
  | addAction (info : ActionInfo) (freshId : Nat)
  | workerUpdateOk (workerId : WorkerId) (uq : Qualifier) (stage : ActionStage)
  | workerUpdateErr (workerId : WorkerId) (uq : Qualifier) (err : SchedErr)
  | matchDispatch (uq : Qualifier) (workerId : Option WorkerId)
      (stageResult : Except SchedErr ActionStage)
  | addWorker (w : Worker)
  | removeWorker (workerId : WorkerId)
  | keepAlive (workerId : WorkerId) (ts : Nat)
  | removeTimedout (workerTimeoutS : Nat) (now : Nat)
  | setDrain (workerId : WorkerId) (isDraining : Bool)

/-- Run one public operation; `none` marks the one reachable `assert!`
(in `worker_set_as_active`). -/
def applyOp (op : SchedulerOp) (s : SchedulerState) : Option SchedulerState :=
  match op with
  | .addAction info freshId => some (addAction s info freshId).1
  | .workerUpdateOk wid uq stage => some (workerUpdateOperationOk s wid uq stage)
  | .workerUpdateErr wid uq e => some (updateActionWithInternalError s wid uq e)
  | .matchDispatch uq wid r => matchingUpdateOperation s uq wid r
  | .addWorker w => some (addWorkerOp s w)
  | .removeWorker wid => some (removeWorkerOp s wid)
  | .keepAlive wid ts => some (workerKeepAlive s wid ts)
  | .removeTimedout timeoutS now => some (removeTimedoutWorkers s timeoutS now)
  | .setDrain wid b => some (setDrainWorker s wid b)

/-- The scheduler-state well-formedness invariant: the queued-action
containers hold exactly the same `ActionInfo` keys (the claimed
invariant), each qualifier appears at most once per container, and no
qualifier is queued and active at the same time. -/
structure Inv (s : SchedulerState) : Prop where
  perm : s.queuedActionsSet.Perm (s.queuedActions.map Prod.fst)
  nodupQueued : (queuedUqs s).Nodup
  nodupActive : (activeUqs s).Nodup
  disj : ∀ q ∈ queuedUqs s, q ∉ activeUqs s

end Scheduler

namespace Scheduler

theorem setTake_spec {uq : Qualifier} :
    ∀ {l : List ActionInfo} {x : ActionInfo} {rest : List ActionInfo},
      setTake uq l = some (x, rest) → x.uq = uq ∧ l.Perm (x :: rest)
  | [], x, rest, h => by simp [setTake] at h
  | y :: ys, x, rest, h => by
    unfold setTake at h
    split at h
    next hy =>
      obtain ⟨rfl, rfl⟩ : y = x ∧ ys = rest := by simpa using h
      exact ⟨hy, .refl _⟩
    next hy =>
      match htake : setTake uq ys with
      | none => rw [htake] at h; simp at h
      | some (x', rest') =>
        rw [htake] at h
        obtain ⟨hx, hr⟩ : x' = x ∧ y :: rest' = rest := by simpa using h
        obtain ⟨huq, hperm⟩ := setTake_spec htake
        rw [← hr, ← hx]
        exact ⟨huq, (hperm.cons y).trans (List.Perm.swap x' y rest')⟩

theorem setTake_isSome {uq : Qualifier} :
    ∀ {l : List ActionInfo}, (setTake uq l).isSome ↔ uq ∈ l.map ActionInfo.uq
  | [] => by simp [setTake]
  | y :: ys => by
    unfold setTake
    by_cases hy : y.uq = uq
    · simp [hy]
    · rw [if_neg hy, Option.isSome_map', setTake_isSome]
      simp only [List.map_cons, List.mem_cons]
      constructor
      · exact Or.inr
      · rintro (h | h)
        · exact absurd h.symm hy
        · exact h

theorem setFind_isSome {uq : Qualifier} :
    ∀ {l : List ActionInfo}, (setFind uq l).isSome ↔ uq ∈ l.map ActionInfo.uq
  | [] => by simp [setFind]
  | y :: ys => by
    unfold setFind
    by_cases hy : y.uq = uq
    · simp [hy]
    · rw [if_neg hy]
      have := @setFind_isSome uq ys
      simp only [List.map_cons, List.mem_cons, this]
      constructor
      · exact fun h => Or.inr h
      · rintro (h | h)
        · exact absurd h.symm hy
        · exact h

theorem setInsert_of_not_mem {l : List ActionInfo} {x : ActionInfo}
    (h : x.uq ∉ l.map ActionInfo.uq) : setInsert l x = x :: l := by
  unfold setInsert
  rw [if_neg]
  intro hcontra
  exact h (setFind_isSome.mp hcontra)

theorem btreeRemoveEntry_spec {k : ActionInfo} :
    ∀ {m : List (ActionInfo × AwaitedAction)} {e rest},
      btreeRemoveEntry k m = some (e, rest) → e.1 = k ∧ m.Perm (e :: rest)
  | [], e, rest, h => by simp [btreeRemoveEntry] at h
  | (k', v) :: ms, e, rest, h => by
    unfold btreeRemoveEntry at h
    split at h
    next hk =>
      obtain ⟨rfl, rfl⟩ : (k', v) = e ∧ ms = rest := by simpa using h
      exact ⟨hk, .refl _⟩
    next hk =>
      match htake : btreeRemoveEntry k ms with
      | none => rw [htake] at h; simp at h
      | some (e', rest') =>
        rw [htake] at h
        obtain ⟨he, hr⟩ : e' = e ∧ (k', v) :: rest' = rest := by simpa using h
        obtain ⟨hk1, hperm⟩ := btreeRemoveEntry_spec htake
        rw [← hr, ← he]
        exact ⟨hk1, (hperm.cons (k', v)).trans (List.Perm.swap e' (k', v) rest')⟩

theorem btreeRemoveEntry_isSome {k : ActionInfo} :
    ∀ {m : List (ActionInfo × AwaitedAction)},
      (btreeRemoveEntry k m).isSome ↔ k ∈ m.map Prod.fst
  | [] => by simp [btreeRemoveEntry]
  | (k', v) :: ms => by
    unfold btreeRemoveEntry
    by_cases hk : k' = k
    · simp [hk]
    · rw [if_neg hk, Option.isSome_map', btreeRemoveEntry_isSome]
      simp only [List.map_cons, List.mem_cons]
      constructor
      · exact Or.inr
      · rintro (h | h)
        · exact absurd h.symm hk
        · exact h

theorem btreeInsert_of_not_mem {m : List (ActionInfo × AwaitedAction)} {k : ActionInfo}
    {v : AwaitedAction} (h : k ∉ m.map Prod.fst) : btreeInsert m k v = (k, v) :: m := by
  unfold btreeInsert
  match htake : btreeRemoveEntry k m with
  | none => rfl
  | some r =>
    exfalso
    apply h
    apply btreeRemoveEntry_isSome.mp
    rw [htake]
    rfl

theorem activeRemoveEntry_spec {uq : Qualifier} :
    ∀ {m : List (ActionInfo × AwaitedAction)} {e rest},
      activeRemoveEntry uq m = some (e, rest) → e.1.uq = uq ∧ m.Perm (e :: rest)
  | [], e, rest, h => by simp [activeRemoveEntry] at h
  | (k', v) :: ms, e, rest, h => by
    unfold activeRemoveEntry at h
    split at h
    next hk =>
      obtain ⟨rfl, rfl⟩ : (k', v) = e ∧ ms = rest := by simpa using h
      exact ⟨hk, .refl _⟩
    next hk =>
      match htake : activeRemoveEntry uq ms with
      | none => rw [htake] at h; simp at h
      | some (e', rest') =>
        rw [htake] at h
        obtain ⟨he, hr⟩ : e' = e ∧ (k', v) :: rest' = rest := by simpa using h
        obtain ⟨hk1, hperm⟩ := activeRemoveEntry_spec htake
        rw [← hr, ← he]
        exact ⟨hk1, (hperm.cons (k', v)).trans (List.Perm.swap e' (k', v) rest')⟩

theorem activeFind_isSome {uq : Qualifier} :
    ∀ {m : List (ActionInfo × AwaitedAction)},
      (activeFind uq m).isSome ↔ uq ∈ m.map fun e => e.1.uq
  | [] => by simp [activeFind]
  | (k', v) :: ms => by
    unfold activeFind
    by_cases hk : k'.uq = uq
    · simp [hk]
    · rw [if_neg hk]
      have := @activeFind_isSome uq ms
      simp only [List.map_cons, List.mem_cons, this]
      constructor
      · exact fun h => Or.inr h
      · rintro (h | h)
        · exact absurd h.symm hk
        · exact h

theorem activeInsert_uqs (m : List (ActionInfo × AwaitedAction)) (k : ActionInfo)
    (v : AwaitedAction) :
    ((activeInsert m k v).map fun e => e.1.uq) =
      if k.uq ∈ m.map (fun e => e.1.uq) then m.map fun e => e.1.uq
      else (m.map fun e => e.1.uq) ++ [k.uq] := by
  induction m with
  | nil => simp [activeInsert]
  | cons e ms ih =>
    obtain ⟨k', v'⟩ := e
    unfold activeInsert
    by_cases hk : k'.uq = k.uq
    · simp [hk]
    · rw [if_neg hk]
      simp only [List.map_cons, ih]
      by_cases hmem : k.uq ∈ ms.map fun e => e.1.uq
      · rw [if_pos hmem, if_pos]
        simp [hmem]
      · rw [if_neg hmem, if_neg]
        · simp
        · simp only [List.map_cons, List.mem_cons]
          rintro (h | h)
          · exact hk h.symm
          · exact hmem h

end Scheduler

namespace Scheduler

theorem retryAction_inv {s : SchedulerState} (hinv : Inv s) (actionInfo : ActionInfo)
    (workerId : WorkerId) (err : SchedErr) :
    Inv (retryAction s actionInfo workerId err) := by
  unfold retryAction
  split
  next => exact hinv
  next k a rest hrm =>
    obtain ⟨hkuq, hperm⟩ := activeRemoveEntry_spec hrm
    have hpermU : (activeUqs s).Perm (k.uq :: rest.map fun e => e.1.uq) := by
      simpa [activeUqs] using hperm.map fun e => e.1.uq
    have hconsNodup : (k.uq :: rest.map fun e => e.1.uq).Nodup :=
      (hpermU.nodup_iff).mp hinv.nodupActive
    have hnodupRest : (rest.map fun e => e.1.uq).Nodup := hconsNodup.of_cons
    have hkNotInRest : k.uq ∉ rest.map fun e => e.1.uq :=
      (List.nodup_cons.mp hconsNodup).1
    have hmemActive : actionInfo.uq ∈ activeUqs s := by
      rw [hpermU.mem_iff]
      exact hkuq ▸ List.mem_cons_self _ _
    have hNotQueued : actionInfo.uq ∉ queuedUqs s :=
      fun hq => (hinv.disj _ hq) hmemActive
    have hRestSub : ∀ q, q ∈ (rest.map fun e => e.1.uq) → q ∈ activeUqs s := by
      intro q hq
      rw [hpermU.mem_iff]
      exact List.mem_cons_of_mem _ hq
    split
    next =>
      refine ⟨hinv.perm, hinv.nodupQueued, hnodupRest, ?_⟩
      intro q hq hq2
      exact (hinv.disj q hq) (hRestSub q hq2)
    next =>
      have hNotKeys : actionInfo ∉ s.queuedActions.map Prod.fst := by
        intro hmem
        apply hNotQueued
        have hm : actionInfo.uq ∈ List.map ActionInfo.uq s.queuedActionsSet := by
          rw [(hinv.perm.map ActionInfo.uq).mem_iff]
          exact List.mem_map_of_mem ActionInfo.uq hmem
        exact hm
      rw [setInsert_of_not_mem hNotQueued, btreeInsert_of_not_mem hNotKeys]
      refine ⟨?_, ?_, hnodupRest, ?_⟩
      · simpa using hinv.perm.cons actionInfo
      · exact List.nodup_cons.mpr ⟨hNotQueued, hinv.nodupQueued⟩
      · intro q hq hq2
        simp only [queuedUqs, List.map_cons, List.mem_cons] at hq
        rcases hq with hq | hq
        · subst hq
          exact (hkuq ▸ hkNotInRest) hq2
        · exact (hinv.disj q hq) (hRestSub q hq2)

theorem foldl_retry_inv (workerId : WorkerId) (err : SchedErr) :
    ∀ (l : List ActionInfo) (s : SchedulerState), Inv s →
      Inv (l.foldl (fun st ai => retryAction st ai workerId err) s)
  | [], _, h => h
  | ai :: rest, s, h =>
    foldl_retry_inv workerId err rest _ (retryAction_inv h ai workerId err)

theorem immediateEvictWorker_inv {s : SchedulerState} (hinv : Inv s)
    (workerId : WorkerId) (err : SchedErr) :
    Inv (immediateEvictWorker s workerId err) := by
  unfold immediateEvictWorker
  split
  next => exact hinv
  next worker rest hrm =>
    exact foldl_retry_inv workerId err _ _
      ⟨hinv.perm, hinv.nodupQueued, hinv.nodupActive, hinv.disj⟩

end Scheduler

namespace Scheduler

theorem inv_set_workers {s : SchedulerState} (hinv : Inv s) (ws : List Worker) :
    Inv { s with workers := ws } :=
  ⟨hinv.perm, hinv.nodupQueued, hinv.nodupActive, hinv.disj⟩

theorem workerNotifyRunAction_inv {s : SchedulerState} (hinv : Inv s)
    (workerId : WorkerId) (actionInfo : ActionInfo) :
    Inv (workerNotifyRunAction s workerId actionInfo).1 := by
  unfold workerNotifyRunAction
  split
  next => exact hinv
  next worker rest hrm =>
    dsimp only
    split
    next => exact inv_set_workers hinv _
    next => exact immediateEvictWorker_inv (inv_set_workers hinv _) _ _

theorem workerSetAsActive_inv {s s' : SchedulerState} (hinv : Inv s)
    (actionInfo : ActionInfo) (workerId : WorkerId)
    (stageResult : Except SchedErr ActionStage)
    (h : workerSetAsActive s actionInfo workerId stageResult = some s') : Inv s' := by
  unfold workerSetAsActive at h
  split at h
  next => cases h; exact hinv
  next k a restQ hrm =>
    obtain ⟨hk, hpermQ⟩ := btreeRemoveEntry_spec hrm
    split at h
    next => simp at h
    next y restSet htake =>
      obtain ⟨hyuq, hpermS⟩ := setTake_spec htake
      cases h
      -- basic membership and nodup facts
      have hkeysPerm : (s.queuedActions.map Prod.fst).Perm (k :: restQ.map Prod.fst) := by
        simpa using hpermQ.map Prod.fst
      have hsetKeys : s.queuedActionsSet.Perm (k :: restQ.map Prod.fst) :=
        hinv.perm.trans hkeysPerm
      have hkInSet : k ∈ s.queuedActionsSet := hsetKeys.mem_iff.mpr (List.mem_cons_self _ _)
      have hyInSet : y ∈ s.queuedActionsSet := hpermS.mem_iff.mpr (List.mem_cons_self _ _)
      have hyk : y = k :=
        List.inj_on_of_nodup_map hinv.nodupQueued hyInSet hkInSet (by rw [hyuq])
      have hrestPerm : restSet.Perm (restQ.map Prod.fst) := by
        have h1 : (y :: restSet).Perm (k :: restQ.map Prod.fst) :=
          hpermS.symm.trans hsetKeys
        rw [hyk] at h1
        exact h1.cons_inv
      have hsetUqsPerm : (queuedUqs s).Perm (k.uq :: restSet.map ActionInfo.uq) := by
        have := hpermS.map ActionInfo.uq
        rw [hyk] at this
        simpa [queuedUqs] using this
      have hconsNodup : (k.uq :: restSet.map ActionInfo.uq).Nodup :=
        hsetUqsPerm.nodup_iff.mp hinv.nodupQueued
      have hkuqInQueued : k.uq ∈ queuedUqs s :=
        hsetUqsPerm.mem_iff.mpr (List.mem_cons_self _ _)
      have hkuqNotActive : k.uq ∉ activeUqs s := hinv.disj _ hkuqInQueued
      have hinsUqs : ∀ v : AwaitedAction,
          ((activeInsert s.activeActions k v).map fun e => e.1.uq) =
            (s.activeActions.map fun e => e.1.uq) ++ [k.uq] := by
        intro v
        rw [activeInsert_uqs, if_neg]
        exact hkuqNotActive
      refine ⟨hrestPerm, hconsNodup.of_cons, ?_, ?_⟩
      · show ((activeInsert _ _ _).map fun e => e.1.uq).Nodup
        rw [hinsUqs]
        have hp := List.perm_append_singleton k.uq (s.activeActions.map fun e => e.1.uq)
        rw [hp.nodup_iff]
        exact List.nodup_cons.mpr ⟨hkuqNotActive, hinv.nodupActive⟩
      · intro q hq
        show q ∉ (activeInsert _ _ _).map fun e => e.1.uq
        rw [hinsUqs]
        have hqSet : q ∈ restSet.map ActionInfo.uq := hq
        have hqOrig : q ∈ queuedUqs s :=
          hsetUqsPerm.mem_iff.mpr (List.mem_cons_of_mem _ hqSet)
        have hqNe : q ≠ k.uq := by
          intro hqe
          subst hqe
          exact (List.nodup_cons.mp hconsNodup).1 hqSet
        intro hmem
        rcases List.mem_append.mp hmem with hmem | hmem
        · exact (hinv.disj _ hqOrig) hmem
        · simp only [List.mem_singleton] at hmem
          exact hqNe hmem

theorem matchingUpdateOperation_inv {s s' : SchedulerState} (hinv : Inv s)
    (uq : Qualifier) (maybeWorkerId : Option WorkerId)
    (stageResult : Except SchedErr ActionStage)
    (h : matchingUpdateOperation s uq maybeWorkerId stageResult = some s') : Inv s' := by
  unfold matchingUpdateOperation at h
  split at h
  next => cases h; exact hinv
  next ai hfind =>
    split at h
    next => cases h; exact hinv
    next workerId =>
      split at h
      next s1 heq =>
        have hs1 : Inv s1 := by
          have := workerNotifyRunAction_inv hinv workerId ai
          rw [heq] at this
          exact this
        exact workerSetAsActive_inv hs1 ai workerId stageResult h
      next s1 heq =>
        cases h
        have := workerNotifyRunAction_inv hinv workerId ai
        rw [heq] at this
        exact this

end Scheduler

namespace Scheduler

/-- After removing one active entry, re-inserting any value under the same
key preserves the active-side invariant facts. -/
theorem active_reinsert_facts {s : SchedulerState}
    {k : ActionInfo} {a : AwaitedAction} {rest : List (ActionInfo × AwaitedAction)}
    (hinv : Inv s) (hrm : s.activeActions.Perm ((k, a) :: rest)) :
    ((rest.map fun e => e.1.uq).Nodup ∧ k.uq ∉ rest.map fun e => e.1.uq) ∧
      (∀ v : AwaitedAction,
        (((activeInsert rest k v).map fun e => e.1.uq).Nodup ∧
          ∀ q ∈ queuedUqs s, q ∉ (activeInsert rest k v).map fun e => e.1.uq)) := by
  have hpermU : (activeUqs s).Perm (k.uq :: rest.map fun e => e.1.uq) := by
    simpa [activeUqs] using hrm.map fun e => e.1.uq
  have hconsNodup : (k.uq :: rest.map fun e => e.1.uq).Nodup :=
    hpermU.nodup_iff.mp hinv.nodupActive
  have hkNotRest : k.uq ∉ rest.map fun e => e.1.uq := (List.nodup_cons.mp hconsNodup).1
  have hins : ∀ v : AwaitedAction,
      ((activeInsert rest k v).map fun e => e.1.uq) =
        (rest.map fun e => e.1.uq) ++ [k.uq] := by
    intro v
    rw [activeInsert_uqs, if_neg hkNotRest]
  refine ⟨⟨hconsNodup.of_cons, hkNotRest⟩, ?_⟩
  intro v
  constructor
  · rw [hins]
    have hp := List.perm_append_singleton k.uq (rest.map fun e => e.1.uq)
    rw [hp.nodup_iff]
    exact hconsNodup
  · intro q hq
    rw [hins]
    have hqNotActive : q ∉ activeUqs s := hinv.disj _ hq
    intro hmem
    apply hqNotActive
    rw [hpermU.mem_iff]
    rcases List.mem_append.mp hmem with hmem | hmem
    · exact List.mem_cons_of_mem _ hmem
    · simp only [List.mem_singleton] at hmem
      subst hmem
      exact List.mem_cons_self _ _

theorem updateActionWithInternalError_inv {s : SchedulerState} (hinv : Inv s)
    (workerId : WorkerId) (uq : Qualifier) (err : SchedErr) :
    Inv (updateActionWithInternalError s workerId uq err) := by
  unfold updateActionWithInternalError
  split
  next => exact hinv
  next actionInfo running rest hrm =>
    obtain ⟨hku, hperm⟩ := activeRemoveEntry_spec hrm
    obtain ⟨⟨hrestNodup, hkNotRest⟩, hreins⟩ := active_reinsert_facts hinv hperm
    dsimp only
    split
    next =>
      refine ⟨hinv.perm, hinv.nodupQueued, hrestNodup, ?_⟩
      intro q hq hq2
      apply hinv.disj q hq
      have hpermU : (activeUqs s).Perm (actionInfo.uq :: rest.map fun e => e.1.uq) := by
        simpa [activeUqs] using hperm.map fun e => e.1.uq
      rw [hpermU.mem_iff]
      exact List.mem_cons_of_mem _ hq2
    next runningWorkerId heq =>
      apply retryAction_inv
      split
      next =>
        refine ⟨hinv.perm, hinv.nodupQueued, ?_, ?_⟩
        · exact (hreins _).1
        · exact (hreins _).2
      next worker restW hw =>
        refine ⟨hinv.perm, hinv.nodupQueued, ?_, ?_⟩
        · exact (hreins _).1
        · exact (hreins _).2

end Scheduler

namespace Scheduler

theorem workerUpdateOperationOk_inv {s : SchedulerState} (hinv : Inv s)
    (workerId : WorkerId) (uq : Qualifier) (stage : ActionStage) :
    Inv (workerUpdateOperationOk s workerId uq stage) := by
  unfold workerUpdateOperationOk
  split
  next => exact immediateEvictWorker_inv hinv _ _
  next =>
    split
    next => exact hinv
    next actionInfo running rest hrm =>
      obtain ⟨hku, hperm⟩ := activeRemoveEntry_spec hrm
      obtain ⟨⟨hrestNodup, hkNotRest⟩, hreins⟩ := active_reinsert_facts hinv hperm
      have hrestDisj : ∀ q ∈ queuedUqs s, q ∉ rest.map fun e => e.1.uq := by
        intro q hq hq2
        apply hinv.disj q hq
        have hpermU : (activeUqs s).Perm (actionInfo.uq :: rest.map fun e => e.1.uq) := by
          simpa [activeUqs] using hperm.map fun e => e.1.uq
        rw [hpermU.mem_iff]
        exact List.mem_cons_of_mem _ hq2
      split
      next =>
        apply immediateEvictWorker_inv
        refine ⟨hinv.perm, hinv.nodupQueued, ?_, ?_⟩
        · exact (hreins _).1
        · exact (hreins _).2
      next =>
        dsimp only
        split
        next =>
          refine ⟨hinv.perm, hinv.nodupQueued, ?_, ?_⟩
          · exact (hreins _).1
          · exact (hreins _).2
        next =>
          split
          next => exact ⟨hinv.perm, hinv.nodupQueued, hrestNodup, hrestDisj⟩
          next => exact ⟨hinv.perm, hinv.nodupQueued, hrestNodup, hrestDisj⟩

theorem addAction_inv {s : SchedulerState} (hinv : Inv s) (actionInfo : ActionInfo)
    (freshId : Nat) : Inv (addAction s actionInfo freshId).1 := by
  unfold addAction
  split
  next => exact hinv
  next hfindNone =>
    have hNotActive : actionInfo.uq ∉ activeUqs s := by
      intro hmem
      have := activeFind_isSome.mpr hmem
      rw [hfindNone] at this
      simp at this
    split
    next arcInfo restSet htake =>
      obtain ⟨harcUq, hpermS⟩ := setTake_spec htake
      have harcInSet : arcInfo ∈ s.queuedActionsSet :=
        hpermS.mem_iff.mpr (List.mem_cons_self _ _)
      have harcInKeys : arcInfo ∈ s.queuedActions.map Prod.fst :=
        (hinv.perm.mem_iff).mp harcInSet
      split
      next hrmNone =>
        exfalso
        have := btreeRemoveEntry_isSome.mpr harcInKeys
        rw [hrmNone] at this
        simp at this
      next origInfo queuedAction restQ hrm =>
        obtain ⟨horig, hpermQ⟩ := btreeRemoveEntry_spec hrm
        dsimp only
        have hsetUqsPerm : (queuedUqs s).Perm (arcInfo.uq :: restSet.map ActionInfo.uq) := by
          simpa [queuedUqs] using hpermS.map ActionInfo.uq
        have hconsNodup : (arcInfo.uq :: restSet.map ActionInfo.uq).Nodup :=
          hsetUqsPerm.nodup_iff.mp hinv.nodupQueued
        have harcNotRestSet : arcInfo.uq ∉ restSet.map ActionInfo.uq :=
          (List.nodup_cons.mp hconsNodup).1
        have hkeysPerm : (s.queuedActions.map Prod.fst).Perm (arcInfo :: restQ.map Prod.fst) := by
          have := hpermQ.map Prod.fst
          simp only [List.map_cons] at this
          rwa [show origInfo = arcInfo from horig] at this
        have hrestPerm : restSet.Perm (restQ.map Prod.fst) := by
          have h1 : (arcInfo :: restSet).Perm (arcInfo :: restQ.map Prod.fst) :=
            (hpermS.symm.trans hinv.perm).trans hkeysPerm
          exact h1.cons_inv
        have harcNotRestQ :
            ({ arcInfo with priority := max origInfo.priority actionInfo.priority } :
              ActionInfo) ∉ restQ.map Prod.fst := by
          intro hmem
          apply harcNotRestSet
          have : ({ arcInfo with priority := max origInfo.priority actionInfo.priority } :
              ActionInfo).uq ∈ (restQ.map Prod.fst).map ActionInfo.uq :=
            List.mem_map_of_mem ActionInfo.uq hmem
          rw [← (hrestPerm.map ActionInfo.uq).mem_iff] at this
          exact this
        have harcNotRestSetUq :
            ({ arcInfo with priority := max origInfo.priority actionInfo.priority } :
              ActionInfo).uq ∉ restSet.map ActionInfo.uq := harcNotRestSet
        rw [btreeInsert_of_not_mem harcNotRestQ, setInsert_of_not_mem harcNotRestSetUq]
        refine ⟨?_, ?_, hinv.nodupActive, ?_⟩
        · simpa using hrestPerm.cons
            ({ arcInfo with priority := max origInfo.priority actionInfo.priority } : ActionInfo)
        · exact List.nodup_cons.mpr ⟨harcNotRestSetUq, hconsNodup.of_cons⟩
        · intro q hq
          simp only [queuedUqs, List.map_cons, List.mem_cons] at hq
          rcases hq with hq | hq
          · subst hq
            show ({ arcInfo with priority := max origInfo.priority actionInfo.priority } :
              ActionInfo).uq ∉ activeUqs s
            have : ({ arcInfo with priority := max origInfo.priority actionInfo.priority } :
              ActionInfo).uq = arcInfo.uq := rfl
            rw [this]
            intro hmem
            exact hinv.disj arcInfo.uq
              (hsetUqsPerm.mem_iff.mpr (List.mem_cons_self _ _)) hmem
          · exact hinv.disj q (hsetUqsPerm.mem_iff.mpr (List.mem_cons_of_mem _ hq))
    next htakeNone =>
      have hNotQueued : actionInfo.uq ∉ queuedUqs s := by
        intro hmem
        have := setTake_isSome.mpr hmem
        rw [htakeNone] at this
        simp at this
      have hNotKeys : actionInfo ∉ s.queuedActions.map Prod.fst := by
        intro hmem
        apply hNotQueued
        have hm : actionInfo.uq ∈ List.map ActionInfo.uq s.queuedActionsSet := by
          rw [(hinv.perm.map ActionInfo.uq).mem_iff]
          exact List.mem_map_of_mem ActionInfo.uq hmem
        exact hm
      dsimp only
      rw [btreeInsert_of_not_mem hNotKeys, setInsert_of_not_mem hNotQueued]
      refine ⟨?_, ?_, hinv.nodupActive, ?_⟩
      · simpa using hinv.perm.cons actionInfo
      · exact List.nodup_cons.mpr ⟨hNotQueued, hinv.nodupQueued⟩
      · intro q hq
        simp only [queuedUqs, List.map_cons, List.mem_cons] at hq
        rcases hq with hq | hq
        · subst hq
          exact hNotActive
        · exact hinv.disj q hq

theorem addWorkerOp_inv {s : SchedulerState} (hinv : Inv s) (w : Worker) :
    Inv (addWorkerOp s w) := by
  unfold addWorkerOp
  dsimp only
  split
  next => exact inv_set_workers hinv _
  next => exact immediateEvictWorker_inv (inv_set_workers hinv _) _ _

theorem workerKeepAlive_inv {s : SchedulerState} (hinv : Inv s)
    (workerId : WorkerId) (ts : Nat) : Inv (workerKeepAlive s workerId ts) := by
  unfold workerKeepAlive
  split
  next => exact hinv
  next =>
    split
    next => exact inv_set_workers hinv _
    next => exact inv_set_workers hinv _

theorem removeWorkerOp_inv {s : SchedulerState} (hinv : Inv s)
    (workerId : WorkerId) : Inv (removeWorkerOp s workerId) :=
  immediateEvictWorker_inv hinv _ _

theorem foldl_evict_inv (err : SchedErr) :
    ∀ (ids : List WorkerId) (s : SchedulerState), Inv s →
      Inv (ids.foldl (fun st id => immediateEvictWorker st id err) s)
  | [], _, h => h
  | wid :: rest, s, h =>
    foldl_evict_inv err rest _ (immediateEvictWorker_inv h wid err)

theorem removeTimedoutWorkers_inv {s : SchedulerState} (hinv : Inv s)
    (workerTimeoutS : Nat) (now : Nat) :
    Inv (removeTimedoutWorkers s workerTimeoutS now) :=
  foldl_evict_inv _ _ _ hinv

theorem setDrainWorker_inv {s : SchedulerState} (hinv : Inv s)
    (workerId : WorkerId) (isDraining : Bool) :
    Inv (setDrainWorker s workerId isDraining) := by
  unfold setDrainWorker
  split
  next => exact hinv
  next => exact inv_set_workers hinv _

end Scheduler

/-- C1. After every public scheduler operation (`add_action`,
`update_operation` from a worker — both the `Ok` and the internal-error
path —, matching dispatch, worker addition/removal/keep-alive/drain and
timed-out-worker eviction with its retries), the key set of
`queued_actions_set` equals the key set of `queued_actions`: the two
containers hold exactly the same `ActionInfo` keys (stated as a
permutation of the key lists, i.e. equality as multisets), and the full
well-formedness invariant is maintained. -/
theorem queued_containers_key_sets_in_sync (op : Scheduler.SchedulerOp)
    (s s' : Scheduler.SchedulerState) (hinv : Scheduler.Inv s)
    (h : Scheduler.applyOp op s = some s') :
    s'.queuedActionsSet.Perm (s'.queuedActions.map Prod.fst) ∧ Scheduler.Inv s' := by
  have hinv' : Scheduler.Inv s' := by
    cases op with
    | addAction info freshId =>
      cases h
      exact Scheduler.addAction_inv hinv info freshId
    | workerUpdateOk wid uq stage =>
      cases h
      exact Scheduler.workerUpdateOperationOk_inv hinv wid uq stage
    | workerUpdateErr wid uq e =>
      cases h
      exact Scheduler.updateActionWithInternalError_inv hinv wid uq e
    | matchDispatch uq wid r =>
      exact Scheduler.matchingUpdateOperation_inv hinv uq wid r h
    | addWorker w =>
      cases h
      exact Scheduler.addWorkerOp_inv hinv w
    | removeWorker wid =>
      cases h
      exact Scheduler.removeWorkerOp_inv hinv wid
    | keepAlive wid ts =>
      cases h
      exact Scheduler.workerKeepAlive_inv hinv wid ts
    | removeTimedout timeoutS now =>
      cases h
      exact Scheduler.removeTimedoutWorkers_inv hinv timeoutS now
    | setDrain wid b =>
      cases h
      exact Scheduler.setDrainWorker_inv hinv wid b
  exact ⟨hinv'.perm, hinv'⟩

namespace Scheduler

theorem channelLatest_channelSend (chans : Channels) (id : Nat) (stage : ActionStage) :
    channelLatest (channelSend chans id stage) id = some stage := by
  induction chans with
  | nil => simp [channelSend, channelLatest]
  | cons e rest ih =>
    obtain ⟨id', st'⟩ := e
    unfold channelSend
    by_cases hid : id' = id
    · simp [hid, channelLatest]
    · simp only [if_neg hid]
      unfold channelLatest
      rw [if_neg hid]
      exact ih

theorem activeFind_eq_none {uq : Qualifier} {m : List (ActionInfo × AwaitedAction)}
    (h : uq ∉ m.map fun e => e.1.uq) : activeFind uq m = none := by
  rw [← Option.not_isSome_iff_eq_none]
  intro hsome
  exact h (activeFind_isSome.mp hsome)

theorem activeRemoveEntry_of_mem {m : List (ActionInfo × AwaitedAction)}
    {k : ActionInfo} {v : AwaitedAction}
    (hnd : (m.map fun e => e.1.uq).Nodup) (hmem : (k, v) ∈ m) :
    ∃ rest, activeRemoveEntry k.uq m = some ((k, v), rest) := by
  induction m with
  | nil => simp at hmem
  | cons e rest ih =>
    obtain ⟨k', v'⟩ := e
    by_cases hk : k'.uq = k.uq
    · have hhead : (k', v') = (k, v) := by
        rcases List.mem_cons.mp hmem with h | h
        · exact h.symm
        · exfalso
          have : k.uq ∈ rest.map fun e => e.1.uq := by
            have := List.mem_map_of_mem (fun e : ActionInfo × AwaitedAction => e.1.uq) h
            simpa using this
          rw [← hk] at this
          exact (List.nodup_cons.mp (by simpa using hnd)).1 this
      refine ⟨rest, ?_⟩
      unfold activeRemoveEntry
      rw [if_pos hk, hhead]
    · have hmemRest : (k, v) ∈ rest := by
        rcases List.mem_cons.mp hmem with h | h
        · exact absurd (congrArg (fun e : ActionInfo × AwaitedAction => e.1.uq) h.symm) hk
        · exact h
      obtain ⟨rest', hrest'⟩ := ih (by simpa using (List.nodup_cons.mp (by simpa using hnd)).2) hmemRest
      refine ⟨(k', v') :: rest', ?_⟩
      unfold activeRemoveEntry
      rw [if_neg hk, hrest']
      rfl

theorem btreeRemoveEntry_of_mem {m : List (ActionInfo × AwaitedAction)}
    {k : ActionInfo} {v : AwaitedAction}
    (hnd : (m.map fun e => e.1.uq).Nodup) (hmem : (k, v) ∈ m) :
    ∃ rest, btreeRemoveEntry k m = some ((k, v), rest) := by
  induction m with
  | nil => simp at hmem
  | cons e rest ih =>
    obtain ⟨k', v'⟩ := e
    by_cases hk : k' = k
    · have hhead : (k', v') = (k, v) := by
        rcases List.mem_cons.mp hmem with h | h
        · exact h.symm
        · exfalso
          have : k.uq ∈ rest.map fun e => e.1.uq := by
            have := List.mem_map_of_mem (fun e : ActionInfo × AwaitedAction => e.1.uq) h
            simpa using this
          rw [← hk] at this
          exact (List.nodup_cons.mp (by simpa using hnd)).1 this
      refine ⟨rest, ?_⟩
      unfold btreeRemoveEntry
      rw [if_pos hk, hhead]
    · by_cases hkuq : k'.uq = k.uq
      · exfalso
        have hmemRest : (k, v) ∈ rest := by
          rcases List.mem_cons.mp hmem with h | h
          · exact absurd (congrArg Prod.fst h.symm) hk
          · exact h
        have : k.uq ∈ rest.map fun e => e.1.uq := by
          have := List.mem_map_of_mem (fun e : ActionInfo × AwaitedAction => e.1.uq) hmemRest
          simpa using this
        rw [← hkuq] at this
        exact (List.nodup_cons.mp (by simpa using hnd)).1 this
      · have hmemRest : (k, v) ∈ rest := by
          rcases List.mem_cons.mp hmem with h | h
          · exact absurd (congrArg Prod.fst h.symm) hk
          · exact h
        obtain ⟨rest', hrest'⟩ := ih (by simpa using (List.nodup_cons.mp (by simpa using hnd)).2) hmemRest
        refine ⟨(k', v') :: rest', ?_⟩
        unfold btreeRemoveEntry
        rw [if_neg hk, hrest']
        rfl

theorem activeInsert_eq_append {m : List (ActionInfo × AwaitedAction)}
    {k : ActionInfo} {v : AwaitedAction} (h : k.uq ∉ m.map fun e => e.1.uq) :
    activeInsert m k v = m ++ [(k, v)] := by
  induction m with
  | nil => simp [activeInsert]
  | cons e rest ih =>
    obtain ⟨k', v'⟩ := e
    unfold activeInsert
    rw [if_neg, ih]
    · simp
    · intro hmem
      exact h (by simp [hmem])
    · intro heq
      apply h
      simp [heq.symm]

theorem activeRemoveEntry_append {m : List (ActionInfo × AwaitedAction)}
    {k : ActionInfo} {v : AwaitedAction} (h : k.uq ∉ m.map fun e => e.1.uq) :
    activeRemoveEntry k.uq (m ++ [(k, v)]) = some ((k, v), m) := by
  induction m with
  | nil => simp [activeRemoveEntry]
  | cons e rest ih =>
    obtain ⟨k', v'⟩ := e
    have hk : ¬ k'.uq = k.uq := by
      intro heq
      apply h
      simp [heq]
    have step : activeRemoveEntry k.uq (((k', v') :: rest) ++ [(k, v)]) =
        if k'.uq = k.uq then some ((k', v'), rest ++ [(k, v)])
        else Option.map (fun r => (r.1, (k', v') :: r.2))
          (activeRemoveEntry k.uq (rest ++ [(k, v)])) := rfl
    rw [step, if_neg hk, ih (by intro hmem; exact h (by simp [hmem]))]
    rfl

end Scheduler

/-- C3. When a worker reports an internal error for an action it is
running, or the worker is evicted while the action is in
`active_actions`, the retry rule (`retry_action`, reached from both
paths) applies: the action is removed from `active_actions`; if its
attempts count has reached the retry budget (`attempts ≥
max_job_retries`), its broadcast stage becomes `Completed` with
`exit_code = INTERNAL_ERROR_EXIT_CODE`, the (merged) error, and the
reporting worker's id, and it is not re-queued (both queued containers
are unchanged); otherwise its broadcast stage becomes `Queued` and it is
re-inserted into both `queued_actions` and `queued_actions_set` under its
unchanged `ActionInfo`, hence at the original priority. -/
theorem retry_rule_completes_or_requeues (s : Scheduler.SchedulerState)
    (k : Scheduler.ActionInfo) (a : Scheduler.AwaitedAction)
    (workerId : Scheduler.WorkerId) (err : Scheduler.SchedErr)
    (hnd : (s.activeActions.map fun e => e.1.uq).Nodup)
    (hmem : (k, a) ∈ s.activeActions)
    (hqset : k.uq ∉ s.queuedActionsSet.map Scheduler.ActionInfo.uq)
    (hqmap : k ∉ s.queuedActions.map Prod.fst) :
    (a.attempts ≥ s.maxJobRetries →
      (Scheduler.retryAction s k workerId err).queuedActions = s.queuedActions ∧
      (Scheduler.retryAction s k workerId err).queuedActionsSet = s.queuedActionsSet ∧
      Scheduler.channelLatest (Scheduler.retryAction s k workerId err).channels a.notifyId =
        some (.completed ⟨Scheduler.INTERNAL_ERROR_EXIT_CODE,
          some (err.merge ⟨.internal, [Scheduler.jobCancelledMsg]⟩), ⟨some workerId⟩⟩) ∧
      Scheduler.activeFind k.uq (Scheduler.retryAction s k workerId err).activeActions = none) ∧
    (a.attempts < s.maxJobRetries →
      (Scheduler.retryAction s k workerId err).queuedActions =
        (k, { a with currentStage := .queued }) :: s.queuedActions ∧
      (Scheduler.retryAction s k workerId err).queuedActionsSet = k :: s.queuedActionsSet ∧
      Scheduler.channelLatest (Scheduler.retryAction s k workerId err).channels a.notifyId =
        some .queued ∧
      Scheduler.activeFind k.uq (Scheduler.retryAction s k workerId err).activeActions = none) := by
  obtain ⟨rest, hrm⟩ := Scheduler.activeRemoveEntry_of_mem hnd hmem
  obtain ⟨-, hperm⟩ := Scheduler.activeRemoveEntry_spec hrm
  have hkNotRest : k.uq ∉ rest.map fun e => e.1.uq := by
    have hpermU := hperm.map fun e : Scheduler.ActionInfo × Scheduler.AwaitedAction => e.1.uq
    have hconsNodup := hpermU.nodup_iff.mp hnd
    simp only [List.map_cons] at hconsNodup
    exact (List.nodup_cons.mp hconsNodup).1
  have hfindNone : Scheduler.activeFind k.uq rest = none :=
    Scheduler.activeFind_eq_none hkNotRest
  constructor
  · intro hcmp
    unfold Scheduler.retryAction
    rw [hrm]
    dsimp only
    rw [if_pos hcmp]
    refine ⟨rfl, rfl, ?_, hfindNone⟩
    rw [Scheduler.channelLatest_channelSend]
    rfl
  · intro hcmp
    unfold Scheduler.retryAction
    rw [hrm]
    dsimp only
    rw [if_neg (by omega)]
    refine ⟨?_, ?_, ?_, hfindNone⟩
    · rw [Scheduler.btreeInsert_of_not_mem hqmap]
    · rw [Scheduler.setInsert_of_not_mem hqset]
    · rw [Scheduler.channelLatest_channelSend]

/-- Witness for C3: a state holding one active action, exercised on the
requeue branch (one attempt, retry budget three). -/
theorem retry_rule_completes_or_requeues_witness :
    ((1 : Nat) ≥ 3 →
      (Scheduler.retryAction
          ⟨[], [], [], [(⟨5, 0, 0⟩, ⟨⟨5, 0, 0⟩, .executing, 7, 1, none, some 4⟩)], [], [], 3⟩
          ⟨5, 0, 0⟩ 4 ⟨.internal, []⟩).queuedActions = [] ∧
      (Scheduler.retryAction
          ⟨[], [], [], [(⟨5, 0, 0⟩, ⟨⟨5, 0, 0⟩, .executing, 7, 1, none, some 4⟩)], [], [], 3⟩
          ⟨5, 0, 0⟩ 4 ⟨.internal, []⟩).queuedActionsSet = [] ∧
      Scheduler.channelLatest
          (Scheduler.retryAction
            ⟨[], [], [], [(⟨5, 0, 0⟩, ⟨⟨5, 0, 0⟩, .executing, 7, 1, none, some 4⟩)], [], [], 3⟩
            ⟨5, 0, 0⟩ 4 ⟨.internal, []⟩).channels 7 =
        some (.completed ⟨Scheduler.INTERNAL_ERROR_EXIT_CODE,
          some (Scheduler.SchedErr.merge ⟨.internal, []⟩
            ⟨.internal, [Scheduler.jobCancelledMsg]⟩), ⟨some 4⟩⟩) ∧
      Scheduler.activeFind 5
          (Scheduler.retryAction
            ⟨[], [], [], [(⟨5, 0, 0⟩, ⟨⟨5, 0, 0⟩, .executing, 7, 1, none, some 4⟩)], [], [], 3⟩
            ⟨5, 0, 0⟩ 4 ⟨.internal, []⟩).activeActions = none) ∧
    ((1 : Nat) < 3 →
      (Scheduler.retryAction
          ⟨[], [], [], [(⟨5, 0, 0⟩, ⟨⟨5, 0, 0⟩, .executing, 7, 1, none, some 4⟩)], [], [], 3⟩
          ⟨5, 0, 0⟩ 4 ⟨.internal, []⟩).queuedActions =
        [(⟨5, 0, 0⟩, ⟨⟨5, 0, 0⟩, .queued, 7, 1, none, some 4⟩)] ∧
      (Scheduler.retryAction
          ⟨[], [], [], [(⟨5, 0, 0⟩, ⟨⟨5, 0, 0⟩, .executing, 7, 1, none, some 4⟩)], [], [], 3⟩
          ⟨5, 0, 0⟩ 4 ⟨.internal, []⟩).queuedActionsSet = [⟨5, 0, 0⟩] ∧
      Scheduler.channelLatest
          (Scheduler.retryAction
            ⟨[], [], [], [(⟨5, 0, 0⟩, ⟨⟨5, 0, 0⟩, .executing, 7, 1, none, some 4⟩)], [], [], 3⟩
            ⟨5, 0, 0⟩ 4 ⟨.internal, []⟩).channels 7 = some .queued ∧
      Scheduler.activeFind 5
          (Scheduler.retryAction
            ⟨[], [], [], [(⟨5, 0, 0⟩, ⟨⟨5, 0, 0⟩, .executing, 7, 1, none, some 4⟩)], [], [], 3⟩
            ⟨5, 0, 0⟩ 4 ⟨.internal, []⟩).activeActions = none) :=
  retry_rule_completes_or_requeues
    ⟨[], [], [], [(⟨5, 0, 0⟩, ⟨⟨5, 0, 0⟩, .executing, 7, 1, none, some 4⟩)], [], [], 3⟩
    ⟨5, 0, 0⟩ ⟨⟨5, 0, 0⟩, .executing, 7, 1, none, some 4⟩ 4 ⟨.internal, []⟩
    (by simp) (by simp) (by simp) (by simp)

namespace Scheduler

theorem setTake_of_mem {l : List ActionInfo} {x : ActionInfo}
    (hnd : (l.map ActionInfo.uq).Nodup) (hx : x ∈ l) :
    ∃ rest, setTake x.uq l = some (x, rest) := by
  induction l with
  | nil => simp at hx
  | cons y ys ih =>
    by_cases hy : y.uq = x.uq
    · have hhead : y = x := by
        rcases List.mem_cons.mp hx with h | h
        · exact h.symm
        · exfalso
          have : x.uq ∈ ys.map ActionInfo.uq := List.mem_map_of_mem ActionInfo.uq h
          rw [← hy] at this
          exact (List.nodup_cons.mp (by simpa using hnd)).1 this
      refine ⟨ys, ?_⟩
      unfold setTake
      rw [if_pos hy, hhead]
    · have hmemRest : x ∈ ys := by
        rcases List.mem_cons.mp hx with h | h
        · exact absurd (congrArg ActionInfo.uq h.symm) hy
        · exact h
      obtain ⟨rest', hrest'⟩ := ih (by simpa using (List.nodup_cons.mp (by simpa using hnd)).2) hmemRest
      refine ⟨y :: rest', ?_⟩
      unfold setTake
      rw [if_neg hy, hrest']
      rfl

end Scheduler

/-- C6. For every `add_action` call whose action key already exists in
`queued_actions` (and not in `active_actions`): the queued entry's
stored priority is raised to the max of the existing and new priorities,
the entry is re-inserted into both containers under that updated
`ActionInfo` (whose ordering determines the `BTreeMap` queue position, so
the queue order reflects the new priority), the caller is subscribed to
the existing entry's notify channel, and no new `AwaitedAction` or
channel is created (the stored `AwaitedAction` is reused unchanged and
the channel registry is untouched). -/
theorem add_action_dedup_to_queued (s : Scheduler.SchedulerState)
    (info : Scheduler.ActionInfo) (freshId : Nat)
    (i0 : Scheduler.ActionInfo) (a0 : Scheduler.AwaitedAction)
    (hinv : Scheduler.Inv s)
    (hactive : Scheduler.activeFind info.uq s.activeActions = none)
    (hmem : (i0, a0) ∈ s.queuedActions) (huq : i0.uq = info.uq) :
    (Scheduler.addAction s info freshId).2 = .ok a0.notifyId ∧
    (Scheduler.addAction s info freshId).1.channels = s.channels ∧
    (Scheduler.addAction s info freshId).1.activeActions = s.activeActions ∧
    ∃ restSet restQ,
      Scheduler.setTake info.uq s.queuedActionsSet = some (i0, restSet) ∧
      Scheduler.btreeRemoveEntry i0 s.queuedActions = some ((i0, a0), restQ) ∧
      (Scheduler.addAction s info freshId).1.queuedActionsSet =
        { i0 with priority := max i0.priority info.priority } :: restSet ∧
      (Scheduler.addAction s info freshId).1.queuedActions =
        ({ i0 with priority := max i0.priority info.priority }, a0) :: restQ := by
  have hKeysUqsPerm : (s.queuedActionsSet.map Scheduler.ActionInfo.uq).Perm
      (s.queuedActions.map fun e => e.1.uq) := by
    have := hinv.perm.map Scheduler.ActionInfo.uq
    simpa [List.map_map, Function.comp] using this
  have hKeysNodup : (s.queuedActions.map fun e => e.1.uq).Nodup :=
    hKeysUqsPerm.nodup_iff.mp hinv.nodupQueued
  obtain ⟨restQ, hrmQ⟩ := Scheduler.btreeRemoveEntry_of_mem hKeysNodup hmem
  obtain ⟨-, hpermQ⟩ := Scheduler.btreeRemoveEntry_spec hrmQ
  have hi0InKeys : i0 ∈ s.queuedActions.map Prod.fst := by
    have := List.mem_map_of_mem Prod.fst hmem
    simpa using this
  have hi0InSet : i0 ∈ s.queuedActionsSet := hinv.perm.mem_iff.mpr hi0InKeys
  obtain ⟨restSet, htakeSet⟩ := Scheduler.setTake_of_mem hinv.nodupQueued hi0InSet
  have htake : Scheduler.setTake info.uq s.queuedActionsSet = some (i0, restSet) := by
    rw [← huq]
    exact htakeSet
  obtain ⟨-, hpermS⟩ := Scheduler.setTake_spec htakeSet
  have hSetUqsNodup : (i0.uq :: restSet.map Scheduler.ActionInfo.uq).Nodup := by
    have := (hpermS.map Scheduler.ActionInfo.uq).nodup_iff.mp hinv.nodupQueued
    simpa using this
  have hNotRestSet : i0.uq ∉ restSet.map Scheduler.ActionInfo.uq :=
    (List.nodup_cons.mp hSetUqsNodup).1
  have hQUqsNodup : (i0.uq :: restQ.map fun e => e.1.uq).Nodup := by
    have := (hpermQ.map fun e : Scheduler.ActionInfo × Scheduler.AwaitedAction => e.1.uq).nodup_iff.mp hKeysNodup
    simpa using this
  have hNotRestQ : ({ i0 with priority := max i0.priority info.priority } :
      Scheduler.ActionInfo) ∉ restQ.map Prod.fst := by
    intro hmem2
    have : ({ i0 with priority := max i0.priority info.priority } :
        Scheduler.ActionInfo).uq ∈ (restQ.map Prod.fst).map Scheduler.ActionInfo.uq :=
      List.mem_map_of_mem Scheduler.ActionInfo.uq hmem2
    have h2 : i0.uq ∈ restQ.map fun e => e.1.uq := by
      simpa [List.map_map, Function.comp] using this
    exact (List.nodup_cons.mp hQUqsNodup).1 h2
  have hNotRestSet' : ({ i0 with priority := max i0.priority info.priority } :
      Scheduler.ActionInfo).uq ∉ restSet.map Scheduler.ActionInfo.uq := hNotRestSet
  unfold Scheduler.addAction
  rw [hactive, htake]
  dsimp only
  rw [hrmQ]
  dsimp only
  rw [Scheduler.btreeInsert_of_not_mem hNotRestQ, Scheduler.setInsert_of_not_mem hNotRestSet']
  exact ⟨rfl, rfl, rfl, restSet, restQ, rfl, rfl, rfl, rfl⟩

/-- Witness for C6: a state with one queued action (priority 1) and a
duplicate submission with priority 2. -/
theorem add_action_dedup_to_queued_witness :
    (Scheduler.addAction
        ⟨[⟨5, 1, 0⟩], [(⟨5, 1, 0⟩, ⟨⟨5, 1, 0⟩, .queued, 7, 0, none, none⟩)], [], [], [],
         [(7, .queued)], 3⟩
        ⟨5, 2, 9⟩ 8).2 = .ok 7 ∧
    (Scheduler.addAction
        ⟨[⟨5, 1, 0⟩], [(⟨5, 1, 0⟩, ⟨⟨5, 1, 0⟩, .queued, 7, 0, none, none⟩)], [], [], [],
         [(7, .queued)], 3⟩
        ⟨5, 2, 9⟩ 8).1.channels =
      (⟨[⟨5, 1, 0⟩], [(⟨5, 1, 0⟩, ⟨⟨5, 1, 0⟩, .queued, 7, 0, none, none⟩)], [], [], [],
        [(7, .queued)], 3⟩ : Scheduler.SchedulerState).channels ∧
    (Scheduler.addAction
        ⟨[⟨5, 1, 0⟩], [(⟨5, 1, 0⟩, ⟨⟨5, 1, 0⟩, .queued, 7, 0, none, none⟩)], [], [], [],
         [(7, .queued)], 3⟩
        ⟨5, 2, 9⟩ 8).1.activeActions =
      (⟨[⟨5, 1, 0⟩], [(⟨5, 1, 0⟩, ⟨⟨5, 1, 0⟩, .queued, 7, 0, none, none⟩)], [], [], [],
        [(7, .queued)], 3⟩ : Scheduler.SchedulerState).activeActions ∧
    ∃ restSet restQ,
      Scheduler.setTake 5 [⟨5, 1, 0⟩] = some (⟨5, 1, 0⟩, restSet) ∧
      Scheduler.btreeRemoveEntry ⟨5, 1, 0⟩
          [(⟨5, 1, 0⟩, ⟨⟨5, 1, 0⟩, .queued, 7, 0, none, none⟩)] =
        some ((⟨5, 1, 0⟩, ⟨⟨5, 1, 0⟩, .queued, 7, 0, none, none⟩), restQ) ∧
      (Scheduler.addAction
          ⟨[⟨5, 1, 0⟩], [(⟨5, 1, 0⟩, ⟨⟨5, 1, 0⟩, .queued, 7, 0, none, none⟩)], [], [], [],
           [(7, .queued)], 3⟩
          ⟨5, 2, 9⟩ 8).1.queuedActionsSet =
        ({ (⟨5, 1, 0⟩ : Scheduler.ActionInfo) with priority := max 1 2 } :: restSet) ∧
      (Scheduler.addAction
          ⟨[⟨5, 1, 0⟩], [(⟨5, 1, 0⟩, ⟨⟨5, 1, 0⟩, .queued, 7, 0, none, none⟩)], [], [], [],
           [(7, .queued)], 3⟩
          ⟨5, 2, 9⟩ 8).1.queuedActions =
        (({ (⟨5, 1, 0⟩ : Scheduler.ActionInfo) with priority := max 1 2 },
          (⟨⟨5, 1, 0⟩, .queued, 7, 0, none, none⟩ : Scheduler.AwaitedAction)) :: restQ) :=
  add_action_dedup_to_queued
    ⟨[⟨5, 1, 0⟩], [(⟨5, 1, 0⟩, ⟨⟨5, 1, 0⟩, .queued, 7, 0, none, none⟩)], [], [], [],
     [(7, .queued)], 3⟩
    ⟨5, 2, 9⟩ 8 ⟨5, 1, 0⟩ ⟨⟨5, 1, 0⟩, .queued, 7, 0, none, none⟩
    ⟨List.Perm.refl _, by simp [Scheduler.queuedUqs], by simp [Scheduler.activeUqs],
     by simp [Scheduler.queuedUqs, Scheduler.activeUqs]⟩
    rfl (by simp) rfl

/-- C7. For every internal-error report on an active action that was just
dispatched via `worker_set_as_active` (which increments `attempts`): if
the error's code is `ResourceExhausted` (backpressure) the action's
attempts count after `update_action_with_internal_error` equals its value
before the action was dispatched, while for any other error code it is
one higher than before dispatch.  Stated within the retry budget so the
re-queued record exhibits the count. -/
theorem backpressure_does_not_count_attempt (s : Scheduler.SchedulerState)
    (k : Scheduler.ActionInfo) (a : Scheduler.AwaitedAction)
    (workerId : Scheduler.WorkerId) (err : Scheduler.SchedErr)
    (hinv : Scheduler.Inv s)
    (hmem : (k, a) ∈ s.queuedActions)
    (hbudget : a.attempts + 1 < s.maxJobRetries) :
    ∃ s1, Scheduler.workerSetAsActive s k workerId (.ok .executing) = some s1 ∧
      ∃ restQ, Scheduler.btreeRemoveEntry k s.queuedActions = some ((k, a), restQ) ∧
        ∃ aFinal,
          (Scheduler.updateActionWithInternalError s1 workerId k.uq err).queuedActions =
            (k, aFinal) :: restQ ∧
          aFinal.attempts =
            if err.code = Scheduler.ErrorCode.resourceExhausted then a.attempts
            else a.attempts + 1 := by
  have hKeysUqsPerm : (s.queuedActionsSet.map Scheduler.ActionInfo.uq).Perm
      (s.queuedActions.map fun e => e.1.uq) := by
    have := hinv.perm.map Scheduler.ActionInfo.uq
    simpa [List.map_map, Function.comp] using this
  have hKeysNodup : (s.queuedActions.map fun e => e.1.uq).Nodup :=
    hKeysUqsPerm.nodup_iff.mp hinv.nodupQueued
  obtain ⟨restQ, hrmQ⟩ := Scheduler.btreeRemoveEntry_of_mem hKeysNodup hmem
  obtain ⟨-, hpermQ⟩ := Scheduler.btreeRemoveEntry_spec hrmQ
  have hkInKeys : k ∈ s.queuedActions.map Prod.fst := by
    have := List.mem_map_of_mem Prod.fst hmem
    simpa using this
  have hkInSet : k ∈ s.queuedActionsSet := hinv.perm.mem_iff.mpr hkInKeys
  obtain ⟨restSet, htake⟩ := Scheduler.setTake_of_mem hinv.nodupQueued hkInSet
  have hkInQueuedUqs : k.uq ∈ s.queuedActionsSet.map Scheduler.ActionInfo.uq :=
    List.mem_map_of_mem Scheduler.ActionInfo.uq hkInSet
  have hkNotActive : k.uq ∉ s.activeActions.map fun e => e.1.uq :=
    hinv.disj k.uq hkInQueuedUqs
  have hQUqsNodup : (k.uq :: restQ.map fun e => e.1.uq).Nodup := by
    have := (hpermQ.map fun e : Scheduler.ActionInfo × Scheduler.AwaitedAction => e.1.uq).nodup_iff.mp hKeysNodup
    simpa using this
  have hkNotRestQ : k ∉ restQ.map Prod.fst := by
    intro hmem2
    have : k.uq ∈ restQ.map fun e => e.1.uq := by
      have := List.mem_map_of_mem Scheduler.ActionInfo.uq hmem2
      simpa [List.map_map, Function.comp] using this
    exact (List.nodup_cons.mp hQUqsNodup).1 this
  have hset : Scheduler.workerSetAsActive s k workerId (.ok .executing) =
      some { s with queuedActions := restQ, queuedActionsSet := restSet,
                    channels := Scheduler.channelSend s.channels a.notifyId .executing,
                    activeActions := Scheduler.activeInsert s.activeActions k
                      { a with currentStage := .executing, attempts := a.attempts + 1,
                               workerId := some workerId } } := by
    unfold Scheduler.workerSetAsActive
    rw [hrmQ]
    dsimp only
    rw [htake]
    rfl
  refine ⟨_, hset, restQ, hrmQ, ?_⟩
  by_cases hbp : err.code = Scheduler.ErrorCode.resourceExhausted
  · refine ⟨⟨a.actionInfo, .queued, a.notifyId, a.attempts, some err, some workerId⟩,
      ?_, by rw [if_pos hbp]⟩
    have hlt : ¬ a.attempts ≥ s.maxJobRetries := by omega
    unfold Scheduler.updateActionWithInternalError
    simp only [Scheduler.activeInsert_eq_append hkNotActive,
      Scheduler.activeRemoveEntry_append hkNotActive, hbp, reduceIte,
      Nat.add_sub_cancel]
    split
    all_goals
      unfold Scheduler.retryAction
      simp only [Scheduler.activeInsert_eq_append hkNotActive,
        Scheduler.activeRemoveEntry_append hkNotActive, hlt, reduceIte,
        Scheduler.btreeInsert_of_not_mem hkNotRestQ]
  · refine ⟨⟨a.actionInfo, .queued, a.notifyId, a.attempts + 1, some err, some workerId⟩,
      ?_, by rw [if_neg hbp]⟩
    have hlt : ¬ a.attempts + 1 ≥ s.maxJobRetries := by omega
    unfold Scheduler.updateActionWithInternalError
    simp only [Scheduler.activeInsert_eq_append hkNotActive,
      Scheduler.activeRemoveEntry_append hkNotActive, hbp, reduceIte]
    split
    all_goals
      unfold Scheduler.retryAction
      simp only [Scheduler.activeInsert_eq_append hkNotActive,
        Scheduler.activeRemoveEntry_append hkNotActive, hlt, reduceIte,
        Scheduler.btreeInsert_of_not_mem hkNotRestQ]

/-- The empty scheduler state a fresh `SimpleScheduler` starts from. -/
def emptySchedulerState : Scheduler.SchedulerState :=
  ⟨[], [], [], [], [], [], 3⟩

theorem emptySchedulerState_inv : Scheduler.Inv emptySchedulerState :=
  ⟨List.Perm.refl _, List.nodup_nil, List.nodup_nil, by
    intro q hq
    simp [Scheduler.queuedUqs, emptySchedulerState] at hq⟩

/-- Witness for C1 at a concrete operation: `add_action` of a fresh action
on the empty scheduler state. -/
theorem queued_containers_key_sets_in_sync_witness :
    Scheduler.Inv emptySchedulerState ∧
      ((Scheduler.addAction emptySchedulerState ⟨0, 0, 0⟩ 0).1.queuedActionsSet.Perm
          ((Scheduler.addAction emptySchedulerState ⟨0, 0, 0⟩ 0).1.queuedActions.map Prod.fst) ∧
        Scheduler.Inv (Scheduler.addAction emptySchedulerState ⟨0, 0, 0⟩ 0).1) :=
  ⟨emptySchedulerState_inv,
   queued_containers_key_sets_in_sync (.addAction ⟨0, 0, 0⟩ 0) emptySchedulerState
     (Scheduler.addAction emptySchedulerState ⟨0, 0, 0⟩ 0).1 emptySchedulerState_inv rfl⟩

/-- Witness for C7 at a concrete input: one queued action dispatched to
worker 4, then a backpressure (`ResourceExhausted`) internal error. -/
theorem backpressure_does_not_count_attempt_witness :
    ∃ s1, Scheduler.workerSetAsActive
        ⟨[⟨5, 0, 0⟩], [(⟨5, 0, 0⟩, ⟨⟨5, 0, 0⟩, .queued, 7, 0, none, none⟩)], [], [], [], [], 3⟩
        ⟨5, 0, 0⟩ 4 (.ok .executing) = some s1 ∧
      ∃ restQ, Scheduler.btreeRemoveEntry ⟨5, 0, 0⟩
          [(⟨5, 0, 0⟩, (⟨⟨5, 0, 0⟩, .queued, 7, 0, none, none⟩ : Scheduler.AwaitedAction))] =
          some ((⟨5, 0, 0⟩, ⟨⟨5, 0, 0⟩, .queued, 7, 0, none, none⟩), restQ) ∧
        ∃ aFinal,
          (Scheduler.updateActionWithInternalError s1 4 5
              ⟨.resourceExhausted, []⟩).queuedActions = (⟨5, 0, 0⟩, aFinal) :: restQ ∧
          aFinal.attempts =
            if (⟨.resourceExhausted, []⟩ : Scheduler.SchedErr).code =
                Scheduler.ErrorCode.resourceExhausted then
              (⟨⟨5, 0, 0⟩, .queued, 7, 0, none, none⟩ : Scheduler.AwaitedAction).attempts
            else
              (⟨⟨5, 0, 0⟩, .queued, 7, 0, none, none⟩ : Scheduler.AwaitedAction).attempts + 1 :=
  backpressure_does_not_count_attempt
    ⟨[⟨5, 0, 0⟩], [(⟨5, 0, 0⟩, ⟨⟨5, 0, 0⟩, .queued, 7, 0, none, none⟩)], [], [], [], [], 3⟩
    ⟨5, 0, 0⟩ ⟨⟨5, 0, 0⟩, .queued, 7, 0, none, none⟩ 4 ⟨.resourceExhausted, []⟩
    ⟨List.Perm.refl _, by simp [Scheduler.queuedUqs], by simp [Scheduler.activeUqs],
     by simp [Scheduler.queuedUqs, Scheduler.activeUqs]⟩
    (by simp) (by decide)

/-- C8 evaluation at the failing input.  Scenario: workers 1 and 2 join at
timestamp 0; an action (qualifier 7) is submitted; worker 2 sends a
keep-alive at timestamp 10; the matcher dispatches the action to worker 1
— `workers.get_mut` in `worker_notify_run_action` promotes worker 1 to
the most-recently-used position without touching its timestamp.  Then
`remove_timedout_workers(now = 10)` with `worker_timeout_s = 5` runs: its
`iter().rev().map_while(..)` walk starts at the least-recently-used end,
sees the fresh worker 2 first and stops, so the timed-out worker 1
(`last_update_timestamp = 0 ≤ 10 - 5`) stays in the pool even though the
claim (and the spec) require every such worker to be evicted. -/
theorem remove_timedout_workers_misses_promoted_stale_worker :
    ∃ s5 : Scheduler.SchedulerState,
      Scheduler.matchingUpdateOperation
          (Scheduler.workerKeepAlive
            ((Scheduler.addAction
              (Scheduler.addWorkerOp
                (Scheduler.addWorkerOp emptySchedulerState ⟨1, true, 0, [], false, false⟩)
                ⟨2, true, 0, [], false, false⟩)
              ⟨7, 0, 1⟩ 0).1)
            2 10)
          7 (some 1) (.ok .executing) = some s5 ∧
        ((Scheduler.removeTimedoutWorkers s5 5 10).workers.map
            fun w => (w.id, w.lastUpdateTimestamp)) = [(1, 0), (2, 10)] ∧
        (0 : Nat) ≤ 10 - 5 :=
  ⟨_, rfl, rfl, by decide⟩
